import Mathlib

/-!
# TinyFSM: a shallow embedding of `tinyfsm.hpp` and of its example machines

The C++ library keeps all of its data in static storage:

* `Fsm<F>::current_state_ptr`, one pointer per machine type `F`;
* `_state_instance<S>::value`, one object per state type `S`;
* whatever static data the application keeps next to them.

That storage is the `World` record below.  Machine types are the elements of
a type `M`, the state types of machine `F` are the elements of `σ F` (the
typing `F *` of the pointer and the `static_assert`s on `is_same_fsm` are this
dependency of `σ` on `F`), event types with their payloads are the elements of
`E`.  A null `current_state_ptr` is `none`.

Every piece of user code (entry and exit hooks, reactions, transition actions,
guards) is a state transformer on the whole `World`, because in C++ it can
reach all of the static storage, and it may fail (`none`): a dereference of a
null `current_state_ptr` is such a failure.
-/

namespace tinyfsm

set_option linter.unusedSectionVars false

/-- The static storage of a program using the library. -/
structure World (M : Type) (σ : M → Type) (D G : Type) where
  /-- Static member `Fsm<F>::current_state_ptr`, for each machine `F`. -/
  current_state_ptr : (F : M) → Option (σ F)
  /-- Static member `_state_instance<S>::value`: the content of each state object. -/
  value : (F : M) → σ F → D
  /-- All other static data of the application (counters, the output stream). -/
  globals : G

/-- A `void` function of the program: it updates the static storage, or fails. -/
abbrev Act (M : Type) (σ : M → Type) (D G : Type) : Type :=
  World M σ D G → Option (World M σ D G)

/-- A condition function: it returns a boolean and may update the static storage. -/
abbrev Cond (M : Type) (σ : M → Type) (D G : Type) : Type :=
  World M σ D G → Option (Bool × World M σ D G)

/-- The `entry` and `exit` member functions of the state classes, resolved on
the object `current_state_ptr` points to. -/
structure Hooks (M : Type) (σ : M → Type) (D G : Type) where
  entry : (F : M) → σ F → Act M σ D G
  exit : (F : M) → σ F → Act M σ D G

/-- The user-supplied part of a program: the hooks, for each machine its
initial state (`FSM_INITIAL_STATE`), the reactions of each state, the function
`F::reset` that `FsmList::reset` calls, and the value `S()` of a
default-constructed state. -/
structure Program (M : Type) (σ : M → Type) (E D G : Type) extends Hooks M σ D G where
  initial : (F : M) → σ F
  react : (F : M) → σ F → E → Act M σ D G
  reset : (F : M) → Act M σ D G
  construct : (F : M) → σ F → D

section Engine

variable {M : Type} {σ : M → Type} {E D G : Type} [DecidableEq M]

/-- The assignment `current_state_ptr = &_state_instance<S>::value` of machine `F`. -/
def assign (F : M) (S : σ F) (w : World M σ D G) : World M σ D G :=
  { w with current_state_ptr := Function.update w.current_state_ptr F (some S) }

/-- Function `Fsm<F>::state<S>()`: the content of the state object of `S`. -/
def Fsm.state (F : M) (S : σ F) (w : World M σ D G) : D :=
  w.value F S

/-- Function `Fsm<F>::is_in_state<S>()`:
`current_state_ptr == &_state_instance<S>::value`. -/
def Fsm.is_in_state [∀ F, DecidableEq (σ F)] (F : M) (S : σ F) (w : World M σ D G) : Bool :=
  decide (w.current_state_ptr F = some S)

/-- Function `Fsm<F>::set_initial_state()` as `FSM_INITIAL_STATE(F, S)` specialises it. -/
def Fsm.set_initial_state (P : Program M σ E D G) (F : M) : Act M σ D G :=
  fun w => some (assign F (P.initial F) w)

/-- Function `Fsm<F>::reset()`, with its empty body. -/
def Fsm.reset : Act M σ D G :=
  fun w => some w

/-- Function `Fsm<F>::enter()`: `current_state_ptr->entry()`. -/
def Fsm.enter (H : Hooks M σ D G) (F : M) : Act M σ D G :=
  fun w =>
    match w.current_state_ptr F with
    | none => none
    | some c => H.entry F c w

/-- Function `Fsm<F>::start()`. -/
def Fsm.start (P : Program M σ E D G) (F : M) : Act M σ D G :=
  fun w => (Fsm.set_initial_state P F w).bind (Fsm.enter P.toHooks F)

/-- Function `Fsm<F>::dispatch(event)`: `current_state_ptr->react(event)`. -/
def Fsm.dispatch (P : Program M σ E D G) (F : M) (event : E) : Act M σ D G :=
  fun w =>
    match w.current_state_ptr F with
    | none => none
    | some c => P.react F c event w

/-- The call `current_state_ptr->exit()` that opens a transition. -/
def Fsm.leave (H : Hooks M σ D G) (F : M) : Act M σ D G :=
  fun w =>
    match w.current_state_ptr F with
    | none => none
    | some c => H.exit F c w

/-- Function `Fsm<F>::transit<S>()`. -/
def Fsm.transit (H : Hooks M σ D G) (F : M) (S : σ F) : Act M σ D G :=
  fun w =>
    (Fsm.leave H F w).bind fun w1 =>
    Fsm.enter H F (assign F S w1)

/-- Function `Fsm<F>::transit<S>(action_function)`. -/
def Fsm.transit_action (H : Hooks M σ D G) (F : M) (S : σ F)
    (action_function : Act M σ D G) : Act M σ D G :=
  fun w =>
    (Fsm.leave H F w).bind fun w1 =>
    (action_function w1).bind fun w2 =>
    Fsm.enter H F (assign F S w2)

/-- Function `Fsm<F>::transit<S>(action_function, condition_function)`. -/
def Fsm.transit_guarded (H : Hooks M σ D G) (F : M) (S : σ F)
    (action_function : Act M σ D G) (condition_function : Cond M σ D G) : Act M σ D G :=
  fun w =>
    (condition_function w).bind fun r =>
    if r.1 then Fsm.transit_action H F S action_function r.2 else some r.2

/-- Functions `FsmList<FF...>::set_initial_state()`. -/
def FsmList.set_initial_state (P : Program M σ E D G) : List M → Act M σ D G
  | [] => fun w => some w
  | F :: FF => fun w =>
      (Fsm.set_initial_state P F w).bind (FsmList.set_initial_state P FF)

/-- Functions `FsmList<FF...>::reset()`; the head call is `F::reset()`. -/
def FsmList.reset (P : Program M σ E D G) : List M → Act M σ D G
  | [] => fun w => some w
  | F :: FF => fun w => (P.reset F w).bind (FsmList.reset P FF)

/-- Functions `FsmList<FF...>::enter()`. -/
def FsmList.enter (P : Program M σ E D G) : List M → Act M σ D G
  | [] => fun w => some w
  | F :: FF => fun w => (Fsm.enter P.toHooks F w).bind (FsmList.enter P FF)

/-- Function `FsmList<F, FF...>::start()`. -/
def FsmList.start (P : Program M σ E D G) (FF : List M) : Act M σ D G :=
  fun w => (FsmList.set_initial_state P FF w).bind (FsmList.enter P FF)

/-- Functions `FsmList<FF...>::dispatch(event)`. -/
def FsmList.dispatch (P : Program M σ E D G) : List M → E → Act M σ D G
  | [], _ => fun w => some w
  | F :: FF, event => fun w =>
      (Fsm.dispatch P F event w).bind (FsmList.dispatch P FF event)

/-- The assignment `_state_instance<S>::value = S()`. -/
def reset_value [∀ F, DecidableEq (σ F)] (P : Program M σ E D G) (S : Sigma σ)
    (w : World M σ D G) : World M σ D G :=
  { w with value :=
      Function.update w.value S.1 (Function.update (w.value S.1) S.2 (P.construct S.1 S.2)) }

/-- Functions `StateList<SS...>::reset()`. -/
def StateList.reset [∀ F, DecidableEq (σ F)] (P : Program M σ E D G) :
    List (Sigma σ) → Act M σ D G
  | [] => fun w => some w
  | S :: SS => fun w => StateList.reset P SS (reset_value P S w)

end Engine

/-! ## The guarded transition and the group dispatch, as the specification words them -/

section Specification

variable {M : Type} {σ : M → Type} {E D G : Type} [DecidableEq M]

/-- The specification of the guarded transition: evaluate the guard first; if
false, perform no transition and do not run the action; if true, behave exactly
as `transit<State>(action)`. -/
def Spec.transit_guarded (H : Hooks M σ D G) (F : M) (S : σ F)
    (action : Act M σ D G) (guard : Cond M σ D G) : Act M σ D G :=
  fun w =>
    match guard w with
    | none => none
    | some (true, wg) => Fsm.transit_action H F S action wg
    | some (false, wg) => some wg

/-- The specification of the group dispatch: the same event is delivered to
each machine of the list, in declared order. -/
def Spec.group_dispatch (P : Program M σ E D G) (FF : List M) (event : E) : Act M σ D G :=
  fun w => FF.foldlM (fun v F => Fsm.dispatch P F event v) w

/-- The first pass of `FsmList::start()` seen as one update of the pointers:
every machine of the list is bound to its initial state. -/
def bind_all (P : Program M σ E D G) : List M → World M σ D G → World M σ D G
  | [], w => w
  | F :: FF, w => bind_all P FF (assign F (P.initial F) w)

end Specification

/-! ## Sequences of library calls -/

section Calls

variable {M : Type} {σ : M → Type} {E D G : Type} [DecidableEq M] [∀ F, DecidableEq (σ F)]

/-- One call of a library operation, with its arguments. -/
inductive Call (M : Type) (σ : M → Type) (E D G : Type) where
  | dispatch (F : M) (event : E)
  | transit (F : M) (S : σ F)
  | transit_action (F : M) (S : σ F) (action : Act M σ D G)
  | transit_guarded (F : M) (S : σ F) (action : Act M σ D G) (guard : Cond M σ D G)
  | fsm_reset
  | set_initial_state (F : M)
  | enter (F : M)
  | start (F : M)
  | list_set_initial_state (FF : List M)
  | list_reset (FF : List M)
  | list_enter (FF : List M)
  | list_start (FF : List M)
  | list_dispatch (FF : List M) (event : E)
  | state_list_reset (SS : List (Sigma σ))

/-- The operation a call runs. -/
def Call.run (P : Program M σ E D G) : Call M σ E D G → Act M σ D G
  | .dispatch F event => Fsm.dispatch P F event
  | .transit F S => Fsm.transit P.toHooks F S
  | .transit_action F S action => Fsm.transit_action P.toHooks F S action
  | .transit_guarded F S action guard => Fsm.transit_guarded P.toHooks F S action guard
  | .fsm_reset => Fsm.reset
  | .set_initial_state F => Fsm.set_initial_state P F
  | .enter F => Fsm.enter P.toHooks F
  | .start F => Fsm.start P F
  | .list_set_initial_state FF => FsmList.set_initial_state P FF
  | .list_reset FF => FsmList.reset P FF
  | .list_enter FF => FsmList.enter P FF
  | .list_start FF => FsmList.start P FF
  | .list_dispatch FF event => FsmList.dispatch P FF event
  | .state_list_reset SS => StateList.reset P SS

end Calls

/-! ## The two machine flavours -/

section Flavours

variable {M : Type} {σ : M → Type} {D G : Type}

/-- Function `MooreMachine<F>::entry()`, the default of the virtual hook. -/
def MooreMachine.entry : Act M σ D G :=
  fun w => some w

/-- Function `MooreMachine<F>::exit()`. -/
def MooreMachine.exit : Act M σ D G :=
  fun w => some w

/-- Function `MealyMachine<F>::entry()`. -/
def MealyMachine.entry : Act M σ D G :=
  fun w => some w

/-- Function `MealyMachine<F>::exit()`. -/
def MealyMachine.exit : Act M σ D G :=
  fun w => some w

/-- The statement `std::cout << line << std::endl`, the output stream being
the global data. -/
def cout (line : String) : Act M σ D (List String) :=
  fun w => some { w with globals := w.globals ++ [line] }

end Flavours

/-! ## The light switch of `examples/api/moore_machine.cpp` -/

/-- The state classes `On` and `Off` of the machine `Switch`. -/
inductive SwitchState where
  | On
  | Off
  deriving DecidableEq, Repr

/-- The event class `Toggle`. -/
inductive SwitchEvent where
  | Toggle
  deriving DecidableEq, Repr

/-- The program has the one machine `Switch`. -/
abbrev SwitchStates : Unit → Type :=
  fun _ => SwitchState

/-- The static storage of the light switch program; the global data is what
was written to `std::cout`. -/
abbrev SwitchWorld : Type :=
  World Unit SwitchStates Unit (List String)

/-- The hooks of `Switch`: `On::entry`, `Off::entry`, and `MooreMachine::exit`
for both states. -/
def Switch.hooks : Hooks Unit SwitchStates Unit (List String) where
  entry := fun _ S =>
    match S with
    | .On => cout "* Closing ciruit (light goes ON)"
    | .Off => cout "* Opening ciruit (light goes OFF)"
  exit := fun _ _ => MooreMachine.exit

/-- The machine `Switch` with `FSM_INITIAL_STATE(Switch, Off)`, `On::react`
and `Off::react`. -/
def Switch : Program Unit SwitchStates SwitchEvent Unit (List String) where
  toHooks := Switch.hooks
  initial := fun _ => SwitchState.Off
  react := fun _ S _ =>
    match S with
    | .On => Fsm.transit Switch.hooks () SwitchState.Off
    | .Off => Fsm.transit Switch.hooks () SwitchState.On
  reset := fun _ => Fsm.reset
  construct := fun _ _ => ()

/-- The static storage before `main` runs: a null pointer, nothing printed. -/
def Switch.boot : SwitchWorld where
  current_state_ptr := fun _ => none
  value := fun _ _ => ()
  globals := []

/-- The calls of `main`: `Switch::start()`, then `n` times
`Switch::dispatch(Toggle())`. -/
def Switch.run : Nat → Option SwitchWorld
  | 0 => Fsm.start Switch () Switch.boot
  | n + 1 => (Switch.run n).bind (Fsm.dispatch Switch () SwitchEvent.Toggle)

/-! ## Two machines whose code records what it observes

A test program in the manner of the ordered log of the specification: two
machines `first` and `second`, each with the state classes `A`, `B`, `C`; every
hook and reaction appends to the global data its own name and the state it
finds current in its machine when it runs; actions and guards record the state
they find current in machine `first`. -/

/-- The two machine classes of the recording program. -/
inductive Recorder.Machine where
  | first
  | second
  deriving DecidableEq, Repr

/-- The state classes of each recording machine. -/
inductive Recorder.State where
  | A
  | B
  | C
  deriving DecidableEq, Repr

/-- One record: who ran, and which state it found current. -/
inductive Recorder.Seen where
  | exit (F : Recorder.Machine) (S : Recorder.State) (current : Option Recorder.State)
  | action (current : Option Recorder.State)
  | guard (current : Option Recorder.State)
  | entry (F : Recorder.Machine) (S : Recorder.State) (current : Option Recorder.State)
  | react (F : Recorder.Machine) (S : Recorder.State) (current : Option Recorder.State)
  deriving DecidableEq, Repr

/-- Both machines have the same three state classes. -/
abbrev Recorder.States : Recorder.Machine → Type :=
  fun _ => Recorder.State

/-- The static storage of the recording program; a state object holds a number. -/
abbrev Recorder.Storage : Type :=
  World Recorder.Machine Recorder.States Nat (List Recorder.Seen)

/-- Append a record holding the state that is current now in machine `F`. -/
def Recorder.note (F : Recorder.Machine) (who : Option Recorder.State → Recorder.Seen) :
    Act Recorder.Machine Recorder.States Nat (List Recorder.Seen) :=
  fun w => some { w with globals := w.globals ++ [who (w.current_state_ptr F)] }

/-- Hooks that only record. -/
def Recorder.hooks : Hooks Recorder.Machine Recorder.States Nat (List Recorder.Seen) where
  entry := fun F S => Recorder.note F (Recorder.Seen.entry F S)
  exit := fun F S => Recorder.note F (Recorder.Seen.exit F S)

/-- A transition action that only records. -/
def Recorder.action : Act Recorder.Machine Recorder.States Nat (List Recorder.Seen) :=
  Recorder.note Recorder.Machine.first Recorder.Seen.action

/-- A guard that records and returns the given boolean. -/
def Recorder.guard (b : Bool) : Cond Recorder.Machine Recorder.States Nat (List Recorder.Seen) :=
  fun w => (Recorder.note Recorder.Machine.first Recorder.Seen.guard w).map fun v => (b, v)

/-- The recording program: `FSM_INITIAL_STATE(first, C)` and
`FSM_INITIAL_STATE(second, B)`; every state reacts to the one event (of type
`Unit`) by recording. -/
def Recorder.program :
    Program Recorder.Machine Recorder.States Unit Nat (List Recorder.Seen) where
  toHooks := Recorder.hooks
  initial := fun F =>
    match F with
    | .first => Recorder.State.C
    | .second => Recorder.State.B
  react := fun F S _ => Recorder.note F (Recorder.Seen.react F S)
  reset := fun _ => Fsm.reset
  construct := fun _ _ => 0

/-- Hooks that record, the exit hook of state `A` of machine `first` moreover
calling `set_initial_state()` of its machine, which binds the pointer to `C`. -/
def Recorder.rebinding_hooks :
    Hooks Recorder.Machine Recorder.States Nat (List Recorder.Seen) where
  entry := fun F S => Recorder.note F (Recorder.Seen.entry F S)
  exit := fun F S =>
    match F, S with
    | .first, .A => fun w =>
        (Recorder.note Recorder.Machine.first
          (Recorder.Seen.exit Recorder.Machine.first Recorder.State.A) w).bind
          (Fsm.set_initial_state Recorder.program Recorder.Machine.first)
    | F, S => Recorder.note F (Recorder.Seen.exit F S)

/-- A guard that records, calls `set_initial_state()` of machine `first` and
returns false. -/
def Recorder.rebinding_guard :
    Cond Recorder.Machine Recorder.States Nat (List Recorder.Seen) :=
  fun w =>
    ((Recorder.note Recorder.Machine.first Recorder.Seen.guard w).bind
      (Fsm.set_initial_state Recorder.program Recorder.Machine.first)).map
      fun v => (false, v)

/-- Static storage before any start: null pointers, nothing recorded. -/
def Recorder.boot : Recorder.Storage where
  current_state_ptr := fun _ => none
  value := fun _ _ => 7
  globals := []

/-- Static storage in which state `A` is current in machine `first` and state
`B` in machine `second`, nothing is recorded, and all state objects hold the
same content. -/
def Recorder.in_A : Recorder.Storage where
  current_state_ptr := fun F =>
    match F with
    | .first => some Recorder.State.A
    | .second => some Recorder.State.B
  value := fun _ _ => 7
  globals := []

/-- The storage `Recorder.in_A` after one evaluation of a recording guard. -/
def Recorder.in_A_guarded : Recorder.Storage :=
  { Recorder.in_A with globals := [Recorder.Seen.guard (some Recorder.State.A)] }

/-- Hooks of a machine built on `MealyMachine` that leaves both hooks at their
defaults. -/
def Recorder.mealy_hooks :
    Hooks Recorder.Machine Recorder.States Nat (List Recorder.Seen) where
  entry := fun _ _ => MealyMachine.entry
  exit := fun _ _ => MealyMachine.exit

/-- Hooks that record, the entry hook of state `A` of machine `first` moreover
calling `transit<C>()`: `A` is a state the machine passes through. -/
def Recorder.transient_hooks :
    Hooks Recorder.Machine Recorder.States Nat (List Recorder.Seen) where
  entry := fun F S =>
    match F, S with
    | .first, .A => fun w =>
        (Recorder.note Recorder.Machine.first
          (Recorder.Seen.entry Recorder.Machine.first Recorder.State.A) w).bind
          (Fsm.transit Recorder.hooks Recorder.Machine.first Recorder.State.C)
    | F, S => Recorder.note F (Recorder.Seen.entry F S)
  exit := fun F S => Recorder.note F (Recorder.Seen.exit F S)

section Content

variable {M : Type} {σ : M → Type} {E D G : Type} [DecidableEq M] [∀ F, DecidableEq (σ F)]

/-- An assignment `state<S>() = d` through the reference that
`Fsm<F>::state<S>()` returns. -/
def store (F : M) (S : σ F) (d : D) (w : World M σ D G) : World M σ D G :=
  { w with value := Function.update w.value F (Function.update (w.value F) S d) }

/-- A piece of user code leaves the content of every state object as it finds it. -/
def KeepsContent (a : Act M σ D G) : Prop :=
  ∀ w v, a w = some v → v.value = w.value

/-- The same for a condition function. -/
def CondKeepsContent (g : Cond M σ D G) : Prop :=
  ∀ w b v, g w = some (b, v) → v.value = w.value

end Content

/-! ## The elevator of `examples/elevator`

This part covers `elevator.cpp` and `fsmlist.hpp`.  The headers `elevator.hpp`
and `motor.hpp` they include, and the file that defines the machine `Motor`,
are outside of it: what the covered code uses of them is a parameter
(`ElevatorEnv`), and everything below holds for all values of the parameter.
The state classes have no data member: `current_floor` and `dest_floor` are
static members of `Elevator`, they are part of the global data. -/

/-- The machine classes, in the order of `fsm_list = FsmList<Motor, Elevator>`. -/
inductive ElevatorMachine where
  | Motor
  | Elevator
  deriving DecidableEq, Repr

/-- The state classes `Panic`, `Moving`, `Idle` of the machine `Elevator`. -/
inductive ElevatorState where
  | Panic
  | Moving
  | Idle
  deriving DecidableEq, Repr

/-- The event classes `MotorUp`, `MotorDown`, `MotorStop` that `elevator.cpp` sends. -/
inductive MotorEvent where
  | MotorUp
  | MotorDown
  | MotorStop
  deriving DecidableEq, Repr

/-- The event classes the two machines receive: `Call` and `FloorSensor` with
their member `floor`, `Alarm`, and the motor events. -/
inductive ElevatorEvent where
  | Call (floor : Int)
  | FloorSensor (floor : Int)
  | Alarm
  | motor (event : MotorEvent)
  deriving DecidableEq, Repr

/-- The state classes of each machine; those of `Motor` are a parameter. -/
abbrev ElevatorStates (MS : Type) : ElevatorMachine → Type
  | .Motor => MS
  | .Elevator => ElevatorState

/-- The global data: the static members of `Elevator`, the lines written to
`std::cout`, and the static data of `Motor` (a parameter). -/
structure ElevatorData (MG : Type) where
  current_floor : Int
  dest_floor : Int
  output : List String
  motor : MG

/-- The static storage of the elevator program. -/
abbrev ElevatorWorld (MS MG : Type) : Type :=
  World ElevatorMachine (ElevatorStates MS) Unit (ElevatorData MG)

/-- A `void` function of the elevator program. -/
abbrev ElevatorAct (MS MG : Type) : Type :=
  Act ElevatorMachine (ElevatorStates MS) Unit (ElevatorData MG)

/-- What `elevator.cpp` uses and does not define: the constant
`Elevator::initial_floor`, the function `Motor::getDirection()`, the machine
`Motor` (initial state, hooks, reactions to every event, `Motor::reset`), and
of the class `Elevator` the members no state class of `elevator.cpp`
overrides: `entry` (virtual, run for `Moving`), `exit`, the reaction to the
motor events, `reset`. -/
structure ElevatorEnv (MS MG : Type) where
  initial_floor : Int
  getDirection : ElevatorWorld MS MG → Int
  motor_initial : MS
  motor_entry : MS → ElevatorAct MS MG
  motor_exit : MS → ElevatorAct MS MG
  motor_react : MS → ElevatorEvent → ElevatorAct MS MG
  motor_reset : ElevatorAct MS MG
  elevator_entry : ElevatorAct MS MG
  elevator_exit : ElevatorAct MS MG
  elevator_react_motor : MotorEvent → ElevatorAct MS MG
  elevator_reset : ElevatorAct MS MG

section ElevatorCode

variable {MS MG : Type}

/-- The sum of two `int` values, on 32 bits in two's complement. -/
def int_add (a b : Int) : Int :=
  (a + b + 2147483648) % 4294967296 - 2147483648

/-- The statement `std::cout << line << std::endl` of the elevator program. -/
def Elevator.print (line : String) : ElevatorAct MS MG :=
  fun w => some { w with globals := { w.globals with output := w.globals.output ++ [line] } }

/-- Function `CallMaintenance()`. -/
def CallMaintenance : ElevatorAct MS MG :=
  Elevator.print "*** calling maintenance ***"

/-- Function `CallFirefighters()`. -/
def CallFirefighters : ElevatorAct MS MG :=
  Elevator.print "*** calling firefighters ***"

/-- The program as far as the motor events go: the reactions of `Motor` and of
`Elevator` to them, none of which `elevator.cpp` defines. -/
def Elevator.motor_events (env : ElevatorEnv MS MG) :
    Program ElevatorMachine (ElevatorStates MS) MotorEvent Unit (ElevatorData MG) where
  entry := fun F =>
    match F with
    | .Motor => env.motor_entry
    | .Elevator => fun _ => env.elevator_entry
  exit := fun F =>
    match F with
    | .Motor => env.motor_exit
    | .Elevator => fun _ => env.elevator_exit
  initial := fun F =>
    match F with
    | .Motor => env.motor_initial
    | .Elevator => ElevatorState.Idle
  react := fun F =>
    match F with
    | .Motor => fun S event => env.motor_react S (ElevatorEvent.motor event)
    | .Elevator => fun _ event => env.elevator_react_motor event
  reset := fun F =>
    match F with
    | .Motor => env.motor_reset
    | .Elevator => env.elevator_reset
  construct := fun _ _ => ()

/-- Function `send_event(event)` of `fsmlist.hpp`, for a motor event:
`fsm_list::dispatch(event)`. -/
def send_event (env : ElevatorEnv MS MG) (event : MotorEvent) : ElevatorAct MS MG :=
  FsmList.dispatch (Elevator.motor_events env)
    [ElevatorMachine.Motor, ElevatorMachine.Elevator] event

/-- The `entry` member functions: `Panic::entry` and `Idle::entry` send
`MotorStop`; `Moving` inherits the one of `Elevator`. -/
def Elevator.entry (env : ElevatorEnv MS MG) :
    (F : ElevatorMachine) → ElevatorStates MS F → ElevatorAct MS MG
  | .Motor, S => env.motor_entry S
  | .Elevator, .Panic => send_event env MotorEvent.MotorStop
  | .Elevator, .Moving => env.elevator_entry
  | .Elevator, .Idle => send_event env MotorEvent.MotorStop

/-- The `exit` member functions: no state class of `elevator.cpp` has its own. -/
def Elevator.exit (env : ElevatorEnv MS MG) :
    (F : ElevatorMachine) → ElevatorStates MS F → ElevatorAct MS MG
  | .Motor, S => env.motor_exit S
  | .Elevator, _ => env.elevator_exit

/-- The hooks of the elevator program. -/
def Elevator.hooks (env : ElevatorEnv MS MG) :
    Hooks ElevatorMachine (ElevatorStates MS) Unit (ElevatorData MG) where
  entry := Elevator.entry env
  exit := Elevator.exit env

/-- Function `Elevator::react(Call const &)`. -/
def Elevator.react_Call : ElevatorAct MS MG :=
  Elevator.print "Call event ignored"

/-- Function `Elevator::react(FloorSensor const &)`. -/
def Elevator.react_FloorSensor : ElevatorAct MS MG :=
  Elevator.print "FloorSensor event ignored"

/-- Function `Elevator::react(Alarm const &)`. -/
def Elevator.react_Alarm (env : ElevatorEnv MS MG) : ElevatorAct MS MG :=
  Fsm.transit_action (Elevator.hooks env) ElevatorMachine.Elevator ElevatorState.Panic
    CallFirefighters

/-- Function `Moving::react(FloorSensor const &)`, `floor` being `e.floor`. -/
def Moving.react (env : ElevatorEnv MS MG) (floor : Int) : ElevatorAct MS MG :=
  fun w =>
    let floor_expected := int_add w.globals.current_floor (env.getDirection w)
    if floor_expected ≠ floor then
      (Elevator.print
        ("Floor sensor defect (expected " ++ toString floor_expected
          ++ ", got " ++ toString floor ++ ")") w).bind
        (Fsm.transit_action (Elevator.hooks env) ElevatorMachine.Elevator
          ElevatorState.Panic CallMaintenance)
    else
      (Elevator.print ("Reached floor " ++ toString floor) w).bind fun w1 =>
        let w2 := { w1 with globals := { w1.globals with current_floor := floor } }
        if floor = w2.globals.dest_floor then
          Fsm.transit (Elevator.hooks env) ElevatorMachine.Elevator ElevatorState.Idle w2
        else some w2

/-- The lambda `action` of `Idle::react(Call const &)`. -/
def Idle.action (env : ElevatorEnv MS MG) : ElevatorAct MS MG :=
  fun w =>
    if w.globals.dest_floor > w.globals.current_floor then
      send_event env MotorEvent.MotorUp w
    else if w.globals.dest_floor < w.globals.current_floor then
      send_event env MotorEvent.MotorDown w
    else some w

/-- Function `Idle::react(Call const &)`, `floor` being `e.floor`. -/
def Idle.react (env : ElevatorEnv MS MG) (floor : Int) : ElevatorAct MS MG :=
  fun w =>
    let w1 := { w with globals := { w.globals with dest_floor := floor } }
    if w1.globals.dest_floor = w1.globals.current_floor then some w1
    else
      Fsm.transit_action (Elevator.hooks env) ElevatorMachine.Elevator ElevatorState.Moving
        (Idle.action env) w1

/-- The reactions: those of `Motor` are parameters; for `Elevator`, `Idle`
overrides the reaction to `Call`, `Moving` the one to `FloorSensor`, and every
other pair of state and event runs the member function of `Elevator`. -/
def Elevator.react (env : ElevatorEnv MS MG) :
    (F : ElevatorMachine) → ElevatorStates MS F → ElevatorEvent → ElevatorAct MS MG
  | .Motor, S, event => env.motor_react S event
  | .Elevator, _, .motor event => env.elevator_react_motor event
  | .Elevator, _, .Alarm => Elevator.react_Alarm env
  | .Elevator, .Idle, .Call floor => Idle.react env floor
  | .Elevator, .Panic, .Call _ => Elevator.react_Call
  | .Elevator, .Moving, .Call _ => Elevator.react_Call
  | .Elevator, .Moving, .FloorSensor floor => Moving.react env floor
  | .Elevator, .Panic, .FloorSensor _ => Elevator.react_FloorSensor
  | .Elevator, .Idle, .FloorSensor _ => Elevator.react_FloorSensor

/-- The elevator program, with `FSM_INITIAL_STATE(Elevator, Idle)`. -/
def Elevator (env : ElevatorEnv MS MG) :
    Program ElevatorMachine (ElevatorStates MS) ElevatorEvent Unit (ElevatorData MG) where
  toHooks := Elevator.hooks env
  initial := fun F =>
    match F with
    | .Motor => env.motor_initial
    | .Elevator => ElevatorState.Idle
  react := Elevator.react env
  reset := fun F =>
    match F with
    | .Motor => env.motor_reset
    | .Elevator => env.elevator_reset
  construct := fun _ _ => ()

/-- The list `fsm_list`. -/
def fsm_list : List ElevatorMachine :=
  [ElevatorMachine.Motor, ElevatorMachine.Elevator]

/-- A function of the elevator program leaves `current_floor` and the pointer
of `Elevator` as it finds them. -/
def KeepsElevator (a : ElevatorAct MS MG) : Prop :=
  ∀ w v, a w = some v →
    v.globals.current_floor = w.globals.current_floor
      ∧ v.current_state_ptr ElevatorMachine.Elevator
          = w.current_state_ptr ElevatorMachine.Elevator

/-- The code of the parameter that a transition of the elevator runs
(`Elevator::exit`, the reactions of both machines to the motor events) leaves
`current_floor` and the pointer of `Elevator` as it finds them. -/
structure ElevatorEnv.Quiet (env : ElevatorEnv MS MG) : Prop where
  exit : KeepsElevator env.elevator_exit
  motor : ∀ m event, KeepsElevator (env.motor_react m (ElevatorEvent.motor event))
  elevator : ∀ event, KeepsElevator (env.elevator_react_motor event)

end ElevatorCode

/-! ## A stand-in motor, to run the elevator code on concrete inputs

The checks on concrete inputs need a value of the parameter.  This one has a
motor with three states whose entry hooks set the direction the elevator
reads, and an `Elevator` class whose own hooks and whose reaction to the motor
events do nothing. -/

/-- The state classes of the stand-in motor. -/
inductive TestMotor where
  | Stopped
  | Up
  | Down
  deriving DecidableEq, Repr

/-- The entry hook of the stand-in motor: print, and set the direction. -/
def TestMotor.entry (S : TestMotor) : ElevatorAct TestMotor Int :=
  fun w =>
    match S with
    | .Stopped =>
        some { w with globals :=
          { w.globals with output := w.globals.output ++ ["Motor: stopped"], motor := 0 } }
    | .Up =>
        some { w with globals :=
          { w.globals with output := w.globals.output ++ ["Motor: moving up"], motor := 1 } }
    | .Down =>
        some { w with globals :=
          { w.globals with output := w.globals.output ++ ["Motor: moving down"], motor := -1 } }

/-- The hooks the transitions of the stand-in motor run. -/
def TestMotor.hooks : Hooks ElevatorMachine (ElevatorStates TestMotor) Unit (ElevatorData Int) where
  entry := fun F =>
    match F with
    | .Motor => TestMotor.entry
    | .Elevator => fun _ w => some w
  exit := fun _ _ w => some w

/-- The stand-in value of the parameter. -/
def test_env : ElevatorEnv TestMotor Int where
  initial_floor := 0
  getDirection := fun w => w.globals.motor
  motor_initial := TestMotor.Stopped
  motor_entry := TestMotor.entry
  motor_exit := fun _ w => some w
  motor_react := fun _ event =>
    match event with
    | .motor .MotorUp => Fsm.transit TestMotor.hooks ElevatorMachine.Motor TestMotor.Up
    | .motor .MotorDown => Fsm.transit TestMotor.hooks ElevatorMachine.Motor TestMotor.Down
    | .motor .MotorStop => Fsm.transit TestMotor.hooks ElevatorMachine.Motor TestMotor.Stopped
    | _ => fun w => some w
  motor_reset := Fsm.reset
  elevator_entry := fun w => some w
  elevator_exit := fun w => some w
  elevator_react_motor := fun _ w => some w
  elevator_reset := Fsm.reset

/-- Static storage with the given states current, the given floors and
direction, and nothing printed. -/
def test_world (motor : TestMotor) (elevator : ElevatorState)
    (current_floor dest_floor direction : Int) : ElevatorWorld TestMotor Int where
  current_state_ptr := fun F =>
    match F with
    | .Motor => some motor
    | .Elevator => some elevator
  value := fun _ _ => ()
  globals :=
    { current_floor := current_floor, dest_floor := dest_floor, output := [],
      motor := direction }

/-- What the checks read of the storage: the current states of `Motor` and
`Elevator`, the two floors, the direction and the printed lines. -/
def summary (w : ElevatorWorld TestMotor Int) :
    Option TestMotor × Option ElevatorState × Int × Int × Int × List String :=
  (w.current_state_ptr ElevatorMachine.Motor, w.current_state_ptr ElevatorMachine.Elevator,
    w.globals.current_floor, w.globals.dest_floor, w.globals.motor, w.globals.output)

/-! ## Basic facts about the pointer assignment -/

section Lemmas

variable {M : Type} {σ : M → Type} {E D G : Type} [DecidableEq M]

theorem assign_current (F : M) (S : σ F) (w : World M σ D G) :
    (assign F S w).current_state_ptr F = some S := by
  simp [assign]

theorem assign_other (F F1 : M) (S : σ F) (w : World M σ D G) (h : F1 ≠ F) :
    (assign F S w).current_state_ptr F1 = w.current_state_ptr F1 := by
  simp [assign, Function.update_noteq h]

theorem assign_value (F : M) (S : σ F) (w : World M σ D G) :
    (assign F S w).value = w.value := rfl

theorem assign_globals (F : M) (S : σ F) (w : World M σ D G) :
    (assign F S w).globals = w.globals := rfl

theorem leave_of_current (H : Hooks M σ D G) (F : M) (w : World M σ D G) (c : σ F)
    (hc : w.current_state_ptr F = some c) : Fsm.leave H F w = H.exit F c w := by
  simp [Fsm.leave, hc]

theorem enter_of_current (H : Hooks M σ D G) (F : M) (w : World M σ D G) (c : σ F)
    (hc : w.current_state_ptr F = some c) : Fsm.enter H F w = H.entry F c w := by
  simp [Fsm.enter, hc]

theorem enter_assign (H : Hooks M σ D G) (F : M) (S : σ F) (w : World M σ D G) :
    Fsm.enter H F (assign F S w) = H.entry F S (assign F S w) :=
  enter_of_current H F (assign F S w) S (assign_current F S w)

theorem transit_action_of_current (H : Hooks M σ D G) (F : M) (S : σ F)
    (action : Act M σ D G) (w : World M σ D G) (c : σ F)
    (hc : w.current_state_ptr F = some c) :
    Fsm.transit_action H F S action w =
      ((H.exit F c w).bind fun w1 =>
        (action w1).bind fun w2 => H.entry F S (assign F S w2)) := by
  unfold Fsm.transit_action
  rw [leave_of_current H F w c hc]
  simp only [enter_assign]

end Lemmas

/-! ## Transitions -/

section Transitions

variable {M : Type} {σ : M → Type} {E D G : Type} [DecidableEq M]

/-- C1 (amended): from current state `c`, `transit<S>(action)` is exactly the
exit hook of `c` run on the storage of the call, then `action` run on what the
exit hook left, then the pointer of the machine (and nothing else) set to `S`,
then the entry hook of `S`, each once and a failure of any step ending the
call.  The exit hook runs with `c` current and the entry hook with `S`
current; the action runs with `c` current provided the exit hook left the
pointer as it found it. -/
theorem transit_action_steps (H : Hooks M σ D G) (F : M) (S : σ F)
    (action : Act M σ D G) (w : World M σ D G) (c : σ F)
    (hc : w.current_state_ptr F = some c) :
    Fsm.transit_action H F S action w =
        ((H.exit F c w).bind fun w1 =>
          (action w1).bind fun w2 => H.entry F S (assign F S w2))
      ∧ (∀ w2 : World M σ D G,
          (assign F S w2).current_state_ptr F = some S
          ∧ (∀ F1, F1 ≠ F → (assign F S w2).current_state_ptr F1 = w2.current_state_ptr F1)
          ∧ (assign F S w2).value = w2.value
          ∧ (assign F S w2).globals = w2.globals)
      ∧ (∀ w1, H.exit F c w = some w1 →
          w1.current_state_ptr F = w.current_state_ptr F →
          w1.current_state_ptr F = some c) := by
  refine ⟨transit_action_of_current H F S action w c hc, ?_, ?_⟩
  · intro w2
    exact ⟨assign_current F S w2, fun F1 h => assign_other F F1 S w2 h, rfl, rfl⟩
  · intro w1 _ hkeep
    rw [hkeep, hc]

/-- C2 (amended): when the guard returns false, the storage after
`transit<S>(action, guard)` is exactly the storage the one evaluation of the
guard left, whatever the hooks and the action are (none of them is run); so
every pointer is as the guard left it, and as it was before the call when the
guard does not assign it. -/
theorem transit_guarded_false (H : Hooks M σ D G) (F : M) (S : σ F)
    (action : Act M σ D G) (guard : Cond M σ D G) (w wg : World M σ D G)
    (hg : guard w = some (false, wg)) :
    Fsm.transit_guarded H F S action guard w = some wg
      ∧ (∀ (H1 : Hooks M σ D G) (action1 : Act M σ D G),
          Fsm.transit_guarded H1 F S action1 guard w = some wg)
      ∧ (wg.current_state_ptr = w.current_state_ptr →
          ∀ v, Fsm.transit_guarded H F S action guard w = some v →
            v.current_state_ptr = w.current_state_ptr) := by
  have key : ∀ (H1 : Hooks M σ D G) (action1 : Act M σ D G),
      Fsm.transit_guarded H1 F S action1 guard w = some wg := by
    intro H1 action1
    simp [Fsm.transit_guarded, hg]
  refine ⟨key H action, key, ?_⟩
  intro hptr v hv
  rw [key H action] at hv
  cases hv
  exact hptr

/-- C3: the guarded transition of the code is the one of the specification:
the guard is evaluated once, on the storage of the call; and when it returns
true the call is `transit<S>(action)` started from the storage the guard left,
that is exit hook, action, assignment and entry hook in this order. -/
theorem transit_guarded_refines (H : Hooks M σ D G) (F : M) (S : σ F)
    (action : Act M σ D G) (guard : Cond M σ D G) :
    Fsm.transit_guarded H F S action guard = Spec.transit_guarded H F S action guard
      ∧ (∀ w wg, guard w = some (true, wg) →
          Fsm.transit_guarded H F S action guard w = Fsm.transit_action H F S action wg)
      ∧ (∀ w wg c, guard w = some (true, wg) → wg.current_state_ptr F = some c →
          Fsm.transit_guarded H F S action guard w =
            ((H.exit F c wg).bind fun w1 =>
              (action w1).bind fun w2 => H.entry F S (assign F S w2))) := by
  refine ⟨?_, ?_, ?_⟩
  · funext w
    unfold Fsm.transit_guarded Spec.transit_guarded
    cases hg : guard w with
    | none => rfl
    | some r =>
      obtain ⟨b, wg⟩ := r
      cases b <;> simp
  · intro w wg hg
    simp [Fsm.transit_guarded, hg]
  · intro w wg c hg hc
    have h : Fsm.transit_guarded H F S action guard w
        = Fsm.transit_action H F S action wg := by
      simp [Fsm.transit_guarded, hg]
    rw [h]
    exact transit_action_of_current H F S action wg c hc

/-- C4: `transit<S>()` is `transit<S>(action)` with an action that does
nothing: from current state `c` it is the exit hook of `c`, then the pointer
set to `S`, then the entry hook of `S`; and when the entry hook of `S` leaves
the pointer as it finds it, `is_in_state<S>()` holds after the call. -/
theorem transit_plain (H : Hooks M σ D G) [∀ F, DecidableEq (σ F)] (F : M) (S : σ F) :
    Fsm.transit H F S = Fsm.transit_action H F S (fun w => some w)
      ∧ (∀ w c, w.current_state_ptr F = some c →
          Fsm.transit H F S w =
            ((H.exit F c w).bind fun w1 => H.entry F S (assign F S w1)))
      ∧ ((∀ u v, H.entry F S u = some v → v.current_state_ptr F = u.current_state_ptr F) →
          ∀ w v, Fsm.transit H F S w = some v → Fsm.is_in_state F S v = true) := by
  refine ⟨?_, ?_, ?_⟩
  · funext w
    simp [Fsm.transit, Fsm.transit_action]
  · intro w c hc
    unfold Fsm.transit
    rw [leave_of_current H F w c hc]
    simp only [enter_assign]
  · intro hentry w v hv
    unfold Fsm.transit at hv
    cases hl : Fsm.leave H F w with
    | none => simp [hl] at hv
    | some w1 =>
      rw [hl] at hv
      simp only [Option.some_bind, enter_assign] at hv
      have h := hentry _ _ hv
      rw [assign_current] at h
      simp [Fsm.is_in_state, h]

/-- C5: `start()` is the pointer set to the initial state `I` (whatever it
was, null included) and then the entry hook of `I`, once; the exit hooks play
no part; and when that entry hook leaves the pointer as it finds it,
`is_in_state<I>()` holds when `start()` returns. -/
theorem start_steps (P : Program M σ E D G) [∀ F, DecidableEq (σ F)] (F : M)
    (w : World M σ D G) :
    Fsm.start P F w = P.entry F (P.initial F) (assign F (P.initial F) w)
      ∧ (assign F (P.initial F) w).current_state_ptr F = some (P.initial F)
      ∧ (∀ exit1 : (F1 : M) → σ F1 → Act M σ D G,
          Fsm.start { P with exit := exit1 } F w = Fsm.start P F w)
      ∧ ((∀ u v, P.entry F (P.initial F) u = some v →
            v.current_state_ptr F = u.current_state_ptr F) →
          ∀ v, Fsm.start P F w = some v → Fsm.is_in_state F (P.initial F) v = true) := by
  have h1 : Fsm.start P F w = P.entry F (P.initial F) (assign F (P.initial F) w) := by
    simp only [Fsm.start, Fsm.set_initial_state, Option.some_bind]
    exact enter_assign P.toHooks F (P.initial F) w
  refine ⟨h1, assign_current F (P.initial F) w, ?_, ?_⟩
  · intro exit1
    rw [h1]
    simp only [Fsm.start, Fsm.set_initial_state, Option.some_bind]
    exact enter_assign _ F (P.initial F) w
  · intro hentry v hv
    rw [h1] at hv
    have h := hentry _ _ hv
    rw [assign_current] at h
    simp [Fsm.is_in_state, h]

end Transitions

/-! ## Transitions on the recording program -/

section TransitionChecks

open Recorder

/-- Witness for C1 on the recording program: from `A`, `transit<B>(action)` records the
exit hook of `A` seeing `A`, the action seeing `A`, the entry hook of `B`
seeing `B`. -/
theorem transit_action_steps_witness :
    in_A.current_state_ptr Machine.first = some State.A
      ∧ (Fsm.transit_action hooks Machine.first State.B action in_A).map World.globals
          = some [Seen.exit Machine.first State.A (some State.A),
                  Seen.action (some State.A),
                  Seen.entry Machine.first State.B (some State.B)] :=
  ⟨rfl, by
    rw [(transit_action_steps hooks Machine.first State.B action in_A State.A rfl).1]
    rfl⟩

/-- Counterexample for C1 as stated: with an exit hook of `A` that calls
`set_initial_state()`, the action of `transit<B>(action)` called in state `A`
finds the initial state `C` current, not the old state `A`. -/
theorem transit_action_after_rebinding_exit :
    in_A.current_state_ptr Machine.first = some State.A
      ∧ (Fsm.transit_action rebinding_hooks Machine.first State.B action in_A).map World.globals
          = some [Seen.exit Machine.first State.A (some State.A),
                  Seen.action (some State.C),
                  Seen.entry Machine.first State.B (some State.B)]
      ∧ some State.C ≠ some State.A :=
  ⟨rfl, rfl, by decide⟩

/-- Witness for C2 on the recording program: a guard returning false leaves its own record
and nothing else. -/
theorem transit_guarded_false_witness :
    guard false in_A = some (false, in_A_guarded)
      ∧ Fsm.transit_guarded hooks Machine.first State.B action (guard false) in_A
          = some in_A_guarded
      ∧ in_A_guarded.globals = [Seen.guard (some State.A)]
      ∧ in_A_guarded.current_state_ptr = in_A.current_state_ptr :=
  ⟨rfl,
   (transit_guarded_false hooks Machine.first State.B action (guard false)
      in_A in_A_guarded rfl).1,
   rfl, rfl⟩

/-- Counterexample for C2 as stated: with a guard that calls `set_initial_state()` and
returns false, nothing but the guard is recorded, and the pointer designates
`C` after the call while it designated `A` before it. -/
theorem transit_guarded_after_rebinding_guard :
    (rebinding_guard in_A).map Prod.fst = some false
      ∧ in_A.current_state_ptr Machine.first = some State.A
      ∧ (Fsm.transit_guarded hooks Machine.first State.B action rebinding_guard in_A).map
            (fun v => v.current_state_ptr Machine.first)
          = some (some State.C)
      ∧ (Fsm.transit_guarded hooks Machine.first State.B action rebinding_guard in_A).map
            World.globals
          = some [Seen.guard (some State.A)]
      ∧ some State.C ≠ some State.A :=
  ⟨rfl, rfl, rfl, rfl, by decide⟩

/-- Witness for C3 on the recording program: the guard is recorded once and first, then
the three records of `transit<B>(action)`. -/
theorem transit_guarded_refines_witness :
    guard true in_A = some (true, in_A_guarded)
      ∧ (Fsm.transit_guarded hooks Machine.first State.B action (guard true) in_A).map
            World.globals
          = some [Seen.guard (some State.A),
                  Seen.exit Machine.first State.A (some State.A),
                  Seen.action (some State.A),
                  Seen.entry Machine.first State.B (some State.B)] :=
  ⟨rfl, by
    rw [(transit_guarded_refines hooks Machine.first State.B action (guard true)).2.1
      in_A in_A_guarded rfl]
    rfl⟩

/-- The recording entry hooks leave every pointer as they find it. -/
theorem recorder_entry_keeps (F : Machine) (S : State) (u v : Storage)
    (h : hooks.entry F S u = some v) :
    v.current_state_ptr = u.current_state_ptr := by
  simp only [hooks, note, Option.some.injEq] at h
  rw [← h]

/-- Witness for C4 on the recording program: after `transit<B>()` from `A` the machine is
in `B`, the exit hook of `A` and the entry hook of `B` being recorded. -/
theorem transit_plain_witness :
    (∀ u v, hooks.entry Machine.first State.B u = some v →
        v.current_state_ptr Machine.first = u.current_state_ptr Machine.first)
      ∧ (Fsm.transit hooks Machine.first State.B in_A).map World.globals
          = some [Seen.exit Machine.first State.A (some State.A),
                  Seen.entry Machine.first State.B (some State.B)]
      ∧ (∀ v, Fsm.transit hooks Machine.first State.B in_A = some v →
          Fsm.is_in_state Machine.first State.B v = true) :=
  ⟨fun u v h => congrFun (recorder_entry_keeps _ _ u v h) _,
   rfl,
   fun v hv => (transit_plain hooks Machine.first State.B).2.2
      (fun u v h => congrFun (recorder_entry_keeps _ _ u v h) _) in_A v hv⟩

/-- Witness for C5 on the recording program: `start()` of machine `first` from null
pointers records the entry hook of the initial state `C` seeing `C`, and
leaves the machine in `C`. -/
theorem start_steps_witness :
    (∀ u v, program.entry Machine.first (program.initial Machine.first) u = some v →
        v.current_state_ptr Machine.first = u.current_state_ptr Machine.first)
      ∧ (Fsm.start program Machine.first boot).map World.globals
          = some [Seen.entry Machine.first State.C (some State.C)]
      ∧ (∀ v, Fsm.start program Machine.first boot = some v →
          Fsm.is_in_state Machine.first (program.initial Machine.first) v = true) :=
  ⟨fun u v h => congrFun (recorder_entry_keeps _ _ u v h) _,
   rfl,
   fun v hv => (start_steps program Machine.first boot).2.2.2
      (fun u v h => congrFun (recorder_entry_keeps _ _ u v h) _) v hv⟩

end TransitionChecks

/-! ## State identity, machine lists -/

section Lists

variable {M : Type} {σ : M → Type} {E D G : Type} [DecidableEq M]

/-- C7: `is_in_state<S>()` is true exactly when the pointer designates the
state object of `S`; it is then false for every other state class `T`, and it
does not read the content of any state object (nor the global data): changing
them, for instance to make the objects of `S` and `T` equal, does not change
its result. -/
theorem is_in_state_by_identity [∀ F, DecidableEq (σ F)] (F : M) (S : σ F)
    (w : World M σ D G) :
    (Fsm.is_in_state F S w = true ↔ w.current_state_ptr F = some S)
      ∧ (∀ T : σ F, T ≠ S → w.current_state_ptr F = some S →
          Fsm.is_in_state F T w = false)
      ∧ (∀ (value1 : (F1 : M) → σ F1 → D) (globals1 : G),
          Fsm.is_in_state F S { w with value := value1, globals := globals1 }
            = Fsm.is_in_state F S w) := by
  refine ⟨?_, ?_, ?_⟩
  · simp [Fsm.is_in_state]
  · intro T hT hc
    simp only [Fsm.is_in_state, hc, decide_eq_false_iff_not, Option.some.injEq]
    exact fun h => hT h.symm
  · intro value1 globals1
    rfl

theorem group_dispatch_eq (P : Program M σ E D G) (event : E) (FF : List M)
    (w : World M σ D G) :
    FsmList.dispatch P FF event w = Spec.group_dispatch P FF event w := by
  induction FF generalizing w with
  | nil => rfl
  | cons F FF ih =>
    simp only [FsmList.dispatch, Spec.group_dispatch, List.foldlM_cons]
    cases h : Fsm.dispatch P F event w with
    | none => rfl
    | some v =>
      simp only [Option.some_bind, Option.bind_eq_bind]
      exact ih v

/-- C8: `FsmList<F1, ..., Fn>::dispatch(e)` is the dispatch of the same `e` on
`F1`, then on `F2`, ..., then on `Fn`, each on the storage the one before left
(and nothing after a failure); on `F :: rest` it is the dispatch on `F`, that
is the reaction of the current state of `F`, followed by the dispatch on
`rest`. -/
theorem list_dispatch_in_order (P : Program M σ E D G) (event : E) (FF : List M) :
    FsmList.dispatch P FF event = Spec.group_dispatch P FF event
      ∧ (∀ F w, FsmList.dispatch P (F :: FF) event w
          = (Fsm.dispatch P F event w).bind (FsmList.dispatch P FF event))
      ∧ (∀ F w c, w.current_state_ptr F = some c →
          FsmList.dispatch P (F :: FF) event w
            = (P.react F c event w).bind (FsmList.dispatch P FF event)) := by
  refine ⟨?_, ?_, ?_⟩
  · funext w
    exact group_dispatch_eq P event FF w
  · intro F w
    rfl
  · intro F w c hc
    simp [FsmList.dispatch, Fsm.dispatch, hc]

theorem set_initial_state_eq (P : Program M σ E D G) (FF : List M) (w : World M σ D G) :
    FsmList.set_initial_state P FF w = some (bind_all P FF w) := by
  induction FF generalizing w with
  | nil => rfl
  | cons F FF ih =>
    simp only [FsmList.set_initial_state, Fsm.set_initial_state, Option.some_bind, bind_all]
    exact ih _

theorem bind_all_other (P : Program M σ E D G) (FF : List M) (w : World M σ D G) (F : M)
    (h : F ∉ FF) : (bind_all P FF w).current_state_ptr F = w.current_state_ptr F := by
  induction FF generalizing w with
  | nil => rfl
  | cons F1 FF ih =>
    simp only [List.mem_cons, not_or] at h
    simp only [bind_all]
    rw [ih _ h.2, assign_other F1 F _ w h.1]

theorem bind_all_bound (P : Program M σ E D G) (FF : List M) (w : World M σ D G) (F : M)
    (h : F ∈ FF) : (bind_all P FF w).current_state_ptr F = some (P.initial F) := by
  induction FF generalizing w with
  | nil => simp at h
  | cons F1 FF ih =>
    simp only [bind_all]
    by_cases hin : F ∈ FF
    · exact ih _ hin
    · have hF : F = F1 := by
        simp only [List.mem_cons] at h
        rcases h with h | h
        · exact h
        · exact absurd h hin
      subst hF
      rw [bind_all_other P FF _ F hin]
      exact assign_current F (P.initial F) w

theorem bind_all_value (P : Program M σ E D G) (FF : List M) (w : World M σ D G) :
    (bind_all P FF w).value = w.value ∧ (bind_all P FF w).globals = w.globals := by
  induction FF generalizing w with
  | nil => exact ⟨rfl, rfl⟩
  | cons F1 FF ih =>
    simp only [bind_all]
    exact ih _

theorem list_enter_eq (P : Program M σ E D G) (FF : List M) (w : World M σ D G) :
    FsmList.enter P FF w = FF.foldlM (fun u F => Fsm.enter P.toHooks F u) w := by
  induction FF generalizing w with
  | nil => rfl
  | cons F FF ih =>
    simp only [FsmList.enter, List.foldlM_cons]
    cases h : Fsm.enter P.toHooks F w with
    | none => rfl
    | some v =>
      simp only [Option.some_bind, Option.bind_eq_bind]
      exact ih v

/-- C9: `FsmList::start()` makes two passes.  The first never fails and
changes the pointers only: every machine of the list is bound to its initial
state, every other pointer, all state content and the global data are as
before.  The second runs on that storage the entry hook of the current state
of `F1`, ..., `Fn` in this order; so the first entry hook that runs is the one
of the initial state of `F1`, and it finds every machine of the list bound. -/
theorem list_start_two_passes (P : Program M σ E D G) (FF : List M) (w : World M σ D G) :
    FsmList.set_initial_state P FF w = some (bind_all P FF w)
      ∧ (∀ F, F ∈ FF → (bind_all P FF w).current_state_ptr F = some (P.initial F))
      ∧ (∀ F, F ∉ FF → (bind_all P FF w).current_state_ptr F = w.current_state_ptr F)
      ∧ (bind_all P FF w).value = w.value
      ∧ (bind_all P FF w).globals = w.globals
      ∧ FsmList.start P FF w = FsmList.enter P FF (bind_all P FF w)
      ∧ FsmList.enter P FF (bind_all P FF w)
          = FF.foldlM (fun u F => Fsm.enter P.toHooks F u) (bind_all P FF w)
      ∧ (∀ F FF1, FF = F :: FF1 →
          FsmList.start P FF w
            = (P.entry F (P.initial F) (bind_all P FF w)).bind (FsmList.enter P FF1)) := by
  have hstart : FsmList.start P FF w = FsmList.enter P FF (bind_all P FF w) := by
    simp only [FsmList.start, set_initial_state_eq, Option.some_bind]
  refine ⟨set_initial_state_eq P FF w, bind_all_bound P FF w, bind_all_other P FF w,
    (bind_all_value P FF w).1, (bind_all_value P FF w).2, hstart, list_enter_eq P FF _, ?_⟩
  intro F FF1 hFF
  rw [hstart]
  subst hFF
  have hb := bind_all_bound P (F :: FF1) w F (List.mem_cons_self F FF1)
  simp only [FsmList.enter]
  rw [enter_of_current P.toHooks F _ _ hb]

/-- C10: on the empty machine list `set_initial_state()`, `reset()`, `enter()`
and `dispatch(e)` return the storage they were given, and so does `reset()` of
the empty state list. -/
theorem empty_lists_do_nothing [∀ F, DecidableEq (σ F)] (P : Program M σ E D G)
    (event : E) (w : World M σ D G) :
    FsmList.set_initial_state P [] w = some w
      ∧ FsmList.reset P [] w = some w
      ∧ FsmList.enter P [] w = some w
      ∧ FsmList.dispatch P [] event w = some w
      ∧ StateList.reset P [] w = some w :=
  ⟨rfl, rfl, rfl, rfl, rfl⟩

end Lists

/-! ## Lists on the recording program -/

section ListChecks

open Recorder

/-- Witness for C7 on the recording program: the state objects of `A` and `B` hold equal
content, the pointer designates `A`: the machine is in `A` and not in `B`. -/
theorem is_in_state_by_identity_witness :
    in_A.value Machine.first State.B = in_A.value Machine.first State.A
      ∧ State.B ≠ State.A
      ∧ in_A.current_state_ptr Machine.first = some State.A
      ∧ Fsm.is_in_state Machine.first State.A in_A = true
      ∧ Fsm.is_in_state Machine.first State.B in_A = false :=
  ⟨rfl, by decide, rfl, rfl,
   (is_in_state_by_identity Machine.first State.A in_A).2.1 State.B (by decide)
     (show in_A.current_state_ptr Machine.first = some State.A from rfl)⟩

/-- Witness for C8 on the recording program: one event dispatched on the list
`[first, second]` records the reaction of `first`, then the one of `second`. -/
theorem list_dispatch_in_order_witness :
    in_A.current_state_ptr Machine.first = some State.A
      ∧ (FsmList.dispatch program [Machine.first, Machine.second] () in_A).map World.globals
          = some [Seen.react Machine.first State.A (some State.A),
                  Seen.react Machine.second State.B (some State.B)] :=
  ⟨rfl, by
    rw [(list_dispatch_in_order program () [Machine.second]).2.2
      Machine.first in_A State.A rfl]
    rfl⟩

/-- Witness for C9 on the recording program: `start()` on the list `[first, second]` from
null pointers records the entry hook of `C` in `first`, then the entry hook of
`B` in `second`. -/
theorem list_start_two_passes_witness :
    [Machine.first, Machine.second] = Machine.first :: [Machine.second]
      ∧ (FsmList.start program [Machine.first, Machine.second] boot).map World.globals
          = some [Seen.entry Machine.first State.C (some State.C),
                  Seen.entry Machine.second State.B (some State.B)] :=
  ⟨rfl, by
    rw [(list_start_two_passes program [Machine.first, Machine.second] boot).2.2.2.2.2.2.2
      Machine.first [Machine.second] rfl]
    rfl⟩

end ListChecks

/-! ## The pointer is never null after a start -/

section Invariant

variable {M : Type} {σ : M → Type} {E D G : Type} [DecidableEq M] [∀ F, DecidableEq (σ F)]

theorem state_list_reset_pointers (P : Program M σ E D G) (SS : List (Sigma σ))
    (w v : World M σ D G) (h : StateList.reset P SS w = some v) :
    v.current_state_ptr = w.current_state_ptr := by
  induction SS generalizing w with
  | nil =>
    cases h
    rfl
  | cons S SS ih =>
    simp only [StateList.reset] at h
    have hp := ih (reset_value P S w) h
    exact hp

end Invariant

/-! ## The invariant on the light switch -/

section SwitchChecks

end SwitchChecks

/-! ## Reset of a state list -/

section StateLists

variable {M : Type} {σ : M → Type} {E D G : Type} [DecidableEq M] [∀ F, DecidableEq (σ F)]

theorem reset_value_listed (P : Program M σ E D G) (S : Sigma σ) (w : World M σ D G) :
    (reset_value P S w).value S.1 S.2 = P.construct S.1 S.2 := by
  simp [reset_value]

theorem reset_value_other (P : Program M σ E D G) (S T : Sigma σ) (w : World M σ D G)
    (h : T ≠ S) : (reset_value P S w).value T.1 T.2 = w.value T.1 T.2 := by
  obtain ⟨F, s⟩ := S
  obtain ⟨F1, t⟩ := T
  by_cases hF : F1 = F
  · subst hF
    have hts : t ≠ s := fun e => h (by rw [e])
    simp [reset_value, Function.update_noteq hts]
  · simp [reset_value, Function.update_noteq hF]

theorem state_list_reset_total (P : Program M σ E D G) (SS : List (Sigma σ))
    (w : World M σ D G) : ∃ v, StateList.reset P SS w = some v := by
  induction SS generalizing w with
  | nil => exact ⟨w, rfl⟩
  | cons S SS ih => exact ih (reset_value P S w)

theorem state_list_reset_globals (P : Program M σ E D G) (SS : List (Sigma σ))
    (w v : World M σ D G) (h : StateList.reset P SS w = some v) :
    v.globals = w.globals := by
  induction SS generalizing w with
  | nil =>
    cases h
    rfl
  | cons S SS ih =>
    simp only [StateList.reset] at h
    have hp := ih (reset_value P S w) h
    exact hp

theorem state_list_reset_other (P : Program M σ E D G) (SS : List (Sigma σ))
    (w v : World M σ D G) (h : StateList.reset P SS w = some v) (T : Sigma σ)
    (hT : T ∉ SS) : v.value T.1 T.2 = w.value T.1 T.2 := by
  induction SS generalizing w with
  | nil =>
    cases h
    rfl
  | cons S SS ih =>
    simp only [List.mem_cons, not_or] at hT
    simp only [StateList.reset] at h
    rw [ih (reset_value P S w) h hT.2]
    exact reset_value_other P S T w hT.1

theorem state_list_reset_listed (P : Program M σ E D G) (SS : List (Sigma σ))
    (w v : World M σ D G) (h : StateList.reset P SS w = some v) (T : Sigma σ)
    (hT : T ∈ SS) : v.value T.1 T.2 = P.construct T.1 T.2 := by
  induction SS generalizing w with
  | nil => simp at hT
  | cons S SS ih =>
    simp only [StateList.reset] at h
    by_cases hin : T ∈ SS
    · exact ih (reset_value P S w) h hin
    · have hTS : T = S := by
        simp only [List.mem_cons] at hT
        rcases hT with e | e
        · exact e
        · exact absurd e hin
      rw [state_list_reset_other P SS _ v h T hin, hTS]
      exact reset_value_listed P S w

theorem world_eq (w v : World M σ D G) (hp : v.current_state_ptr = w.current_state_ptr)
    (hv : v.value = w.value) (hg : v.globals = w.globals) : v = w := by
  cases w
  cases v
  simp only at hp hv hg
  subst hp hv hg
  rfl

/-- C11: `StateList<S1, ..., Sn>::reset()` always returns, and it changes no
pointer of any machine: `is_in_state<T>()` gives the same value after it as
before it for every machine and every state `T`, also when the current state
is one of the listed ones, whose object then holds the default-constructed
content; the content of every state object not in the list is unchanged, and
so is the global data. -/
theorem state_list_reset_frame (P : Program M σ E D G) (SS : List (Sigma σ))
    (w : World M σ D G) :
    ∃ v, StateList.reset P SS w = some v
      ∧ v.current_state_ptr = w.current_state_ptr
      ∧ (∀ (F : M) (T : σ F), Fsm.is_in_state F T v = Fsm.is_in_state F T w)
      ∧ (∀ (F : M) (T : σ F), w.current_state_ptr F = some T → (⟨F, T⟩ : Sigma σ) ∈ SS →
          v.current_state_ptr F = some T ∧ Fsm.state F T v = P.construct F T)
      ∧ (∀ (F : M) (T : σ F), (⟨F, T⟩ : Sigma σ) ∉ SS → Fsm.state F T v = Fsm.state F T w)
      ∧ v.globals = w.globals := by
  obtain ⟨v, hv⟩ := state_list_reset_total P SS w
  have hp := state_list_reset_pointers P SS w v hv
  refine ⟨v, hv, hp, ?_, ?_, ?_, state_list_reset_globals P SS w v hv⟩
  · intro F T
    simp only [Fsm.is_in_state, hp]
  · intro F T hc hin
    refine ⟨by rw [hp]; exact hc, ?_⟩
    exact state_list_reset_listed P SS w v hv ⟨F, T⟩ hin
  · intro F T hout
    exact state_list_reset_other P SS w v hv ⟨F, T⟩ hout

/-- C12: after `StateList::reset()`, whatever the storage was before, the
object of every listed state holds the default-constructed value of its type;
and a second `reset()` right after the first returns the storage the first
one left. -/
theorem state_list_reset_idempotent (P : Program M σ E D G) (SS : List (Sigma σ))
    (w : World M σ D G) :
    ∃ v, StateList.reset P SS w = some v
      ∧ (∀ (F : M) (S : σ F), (⟨F, S⟩ : Sigma σ) ∈ SS → Fsm.state F S v = P.construct F S)
      ∧ StateList.reset P SS v = some v
      ∧ (StateList.reset P SS w).bind (StateList.reset P SS) = StateList.reset P SS w := by
  obtain ⟨v, hv⟩ := state_list_reset_total P SS w
  have hagain : StateList.reset P SS v = some v := by
    obtain ⟨u, hu⟩ := state_list_reset_total P SS v
    rw [hu]
    congr 1
    apply world_eq
    · exact state_list_reset_pointers P SS v u hu
    · funext F S
      by_cases hin : (⟨F, S⟩ : Sigma σ) ∈ SS
      · rw [state_list_reset_listed P SS w v hv ⟨F, S⟩ hin]
        exact state_list_reset_listed P SS v u hu ⟨F, S⟩ hin
      · exact state_list_reset_other P SS v u hu ⟨F, S⟩ hin
    · exact state_list_reset_globals P SS v u hu
  refine ⟨v, hv, ?_, hagain, ?_⟩
  · intro F S hin
    exact state_list_reset_listed P SS w v hv ⟨F, S⟩ hin
  · rw [hv]
    exact hagain

end StateLists

/-! ## State lists on the recording program -/

section StateListChecks

open Recorder

/-- Witness for C11 on the recording program: the state object of the current
state `A` is reset, the machine stays in `A`, the object of `B` keeps its
content. -/
theorem state_list_reset_frame_witness :
    in_A.current_state_ptr Machine.first = some State.A
      ∧ (⟨Machine.first, State.A⟩ : Sigma States) ∈ [(⟨Machine.first, State.A⟩ : Sigma States)]
      ∧ (⟨Machine.first, State.B⟩ : Sigma States) ∉ [(⟨Machine.first, State.A⟩ : Sigma States)]
      ∧ ∃ v, StateList.reset program [(⟨Machine.first, State.A⟩ : Sigma States)] in_A = some v
          ∧ Fsm.is_in_state Machine.first State.A v = true
          ∧ Fsm.state Machine.first State.A v = 0
          ∧ Fsm.state Machine.first State.B v = 7 := by
  have hin : (⟨Machine.first, State.A⟩ : Sigma States)
      ∈ [(⟨Machine.first, State.A⟩ : Sigma States)] := List.mem_singleton.mpr rfl
  have hout : (⟨Machine.first, State.B⟩ : Sigma States)
      ∉ [(⟨Machine.first, State.A⟩ : Sigma States)] := by decide
  obtain ⟨v, hv, _, his, hcur, hother, _⟩ :=
    state_list_reset_frame program [(⟨Machine.first, State.A⟩ : Sigma States)] in_A
  refine ⟨rfl, hin, hout, v, hv, ?_, ?_, ?_⟩
  · rw [his]
    rfl
  · exact (hcur Machine.first State.A rfl hin).2
  · rw [hother Machine.first State.B hout]
    rfl

/-- Witness for C12 on the recording program: after the reset of `A` its
object holds the default value `0`, and a second reset changes nothing. -/
theorem state_list_reset_idempotent_witness :
    (⟨Machine.first, State.A⟩ : Sigma States) ∈ [(⟨Machine.first, State.A⟩ : Sigma States)]
      ∧ Fsm.state Machine.first State.A in_A = 7
      ∧ ∃ v, StateList.reset program [(⟨Machine.first, State.A⟩ : Sigma States)] in_A = some v
          ∧ Fsm.state Machine.first State.A v = 0
          ∧ StateList.reset program [(⟨Machine.first, State.A⟩ : Sigma States)] v = some v := by
  have hin : (⟨Machine.first, State.A⟩ : Sigma States)
      ∈ [(⟨Machine.first, State.A⟩ : Sigma States)] := List.mem_singleton.mpr rfl
  obtain ⟨v, hv, hlisted, hagain, _⟩ :=
    state_list_reset_idempotent program [(⟨Machine.first, State.A⟩ : Sigma States)] in_A
  exact ⟨hin, rfl, v, hv, hlisted Machine.first State.A hin, hagain⟩

end StateListChecks

/-! ## The light switch -/

section SwitchToggle

theorem switch_start (w : SwitchWorld) :
    ∃ v, Fsm.start Switch () w = some v
      ∧ v.current_state_ptr () = some SwitchState.Off
      ∧ v.globals = w.globals ++ ["* Opening ciruit (light goes OFF)"] :=
  ⟨_, rfl, rfl, rfl⟩

theorem switch_toggle_off (w : SwitchWorld)
    (h : w.current_state_ptr () = some SwitchState.Off) :
    Fsm.dispatch Switch () SwitchEvent.Toggle w
        = ((Switch.exit () SwitchState.Off w).bind fun w1 =>
            Switch.entry () SwitchState.On (assign () SwitchState.On w1))
      ∧ ∃ v, Fsm.dispatch Switch () SwitchEvent.Toggle w = some v
          ∧ v.current_state_ptr () = some SwitchState.On
          ∧ v.globals = w.globals ++ ["* Closing ciruit (light goes ON)"] := by
  have hd : Fsm.dispatch Switch () SwitchEvent.Toggle w
      = Fsm.transit Switch.hooks () SwitchState.On w := by
    simp only [Fsm.dispatch, h]
    rfl
  have ht : Fsm.transit Switch.hooks () SwitchState.On w
      = ((Switch.exit () SwitchState.Off w).bind fun w1 =>
          Switch.entry () SwitchState.On (assign () SwitchState.On w1)) := by
    unfold Fsm.transit
    rw [leave_of_current Switch.hooks () w SwitchState.Off h]
    simp only [enter_assign]
    rfl
  refine ⟨hd.trans ht, ?_⟩
  rw [hd, ht]
  exact ⟨_, rfl, rfl, rfl⟩

theorem switch_toggle_on (w : SwitchWorld)
    (h : w.current_state_ptr () = some SwitchState.On) :
    ∃ v, Fsm.dispatch Switch () SwitchEvent.Toggle w = some v
      ∧ v.current_state_ptr () = some SwitchState.Off
      ∧ v.globals = w.globals ++ ["* Opening ciruit (light goes OFF)"] := by
  have hd : Fsm.dispatch Switch () SwitchEvent.Toggle w
      = Fsm.transit Switch.hooks () SwitchState.Off w := by
    simp only [Fsm.dispatch, h]
    rfl
  have ht : Fsm.transit Switch.hooks () SwitchState.Off w
      = ((Switch.exit () SwitchState.On w).bind fun w1 =>
          Switch.entry () SwitchState.Off (assign () SwitchState.Off w1)) := by
    unfold Fsm.transit
    rw [leave_of_current Switch.hooks () w SwitchState.On h]
    simp only [enter_assign]
    rfl
  rw [hd, ht]
  exact ⟨_, rfl, rfl, rfl⟩

theorem switch_run_state (n : Nat) :
    ∃ v, Switch.run n = some v
      ∧ v.current_state_ptr () = some (if n % 2 = 1 then SwitchState.On else SwitchState.Off) := by
  induction n with
  | zero =>
    obtain ⟨v, hv, hp, _⟩ := switch_start Switch.boot
    exact ⟨v, hv, hp⟩
  | succ n ih =>
    obtain ⟨u, hu, hp⟩ := ih
    simp only [Switch.run, hu, Option.some_bind]
    by_cases hn : n % 2 = 1
    · rw [if_pos hn] at hp
      obtain ⟨v, hv, hq, _⟩ := switch_toggle_on u hp
      have hn1 : ¬ (n + 1) % 2 = 1 := by omega
      exact ⟨v, hv, by rw [if_neg hn1]; exact hq⟩
    · rw [if_neg hn] at hp
      obtain ⟨_, v, hv, hq, _⟩ := switch_toggle_off u hp
      have hn1 : (n + 1) % 2 = 1 := by omega
      exact ⟨v, hv, by rw [if_pos hn1]; exact hq⟩

/-- C13: for the light switch, `start()` runs the entry hook of `Off` (its
line is printed) and leaves the machine in `Off`; `Toggle` dispatched in `Off`
is the exit hook of `Off`, then the pointer set to `On`, then the entry hook
of `On`, and leaves the machine in `On` and not in `Off`; from either state
two `Toggle` bring the machine back to that state; and after `start()` and `n`
`Toggle` the machine is in `On` exactly when `n` is odd. -/
theorem switch_toggles :
    (∀ w : SwitchWorld, ∃ v, Fsm.start Switch () w = some v
        ∧ v.globals = w.globals ++ ["* Opening ciruit (light goes OFF)"]
        ∧ Fsm.is_in_state () SwitchState.Off v = true)
      ∧ (∀ w : SwitchWorld, w.current_state_ptr () = some SwitchState.Off →
          Fsm.dispatch Switch () SwitchEvent.Toggle w
              = ((Switch.exit () SwitchState.Off w).bind fun w1 =>
                  Switch.entry () SwitchState.On (assign () SwitchState.On w1))
            ∧ ∃ v, Fsm.dispatch Switch () SwitchEvent.Toggle w = some v
                ∧ v.globals = w.globals ++ ["* Closing ciruit (light goes ON)"]
                ∧ Fsm.is_in_state () SwitchState.On v = true
                ∧ Fsm.is_in_state () SwitchState.Off v = false)
      ∧ (∀ (w : SwitchWorld) (S : SwitchState), w.current_state_ptr () = some S →
          ∃ v, (Fsm.dispatch Switch () SwitchEvent.Toggle w).bind
                (Fsm.dispatch Switch () SwitchEvent.Toggle) = some v
            ∧ v.current_state_ptr () = some S)
      ∧ (∀ n : Nat, ∃ v, Switch.run n = some v
          ∧ (Fsm.is_in_state () SwitchState.On v = true ↔ n % 2 = 1)) := by
  refine ⟨?_, ?_, ?_, ?_⟩
  · intro w
    obtain ⟨v, hv, hp, hg⟩ := switch_start w
    exact ⟨v, hv, hg, by simp [Fsm.is_in_state, hp]⟩
  · intro w h
    obtain ⟨heq, v, hv, hp, hg⟩ := switch_toggle_off w h
    exact ⟨heq, v, hv, hg, by simp [Fsm.is_in_state, hp], by simp [Fsm.is_in_state, hp]⟩
  · intro w S h
    cases S with
    | On =>
      obtain ⟨u, hu, hp, _⟩ := switch_toggle_on w h
      obtain ⟨_, v, hv, hq, _⟩ := switch_toggle_off u hp
      exact ⟨v, by rw [hu]; exact hv, hq⟩
    | Off =>
      obtain ⟨_, u, hu, hp, _⟩ := switch_toggle_off w h
      obtain ⟨v, hv, hq, _⟩ := switch_toggle_on u hp
      exact ⟨v, by rw [hu]; exact hv, hq⟩
  · intro n
    obtain ⟨v, hv, hp⟩ := switch_run_state n
    refine ⟨v, hv, ?_⟩
    by_cases hn : n % 2 = 1
    · rw [if_pos hn] at hp
      simp [Fsm.is_in_state, hp, hn]
    · rw [if_neg hn] at hp
      simp [Fsm.is_in_state, hp, hn]

/-- Witness for C13: in the storage before `main`, made to designate `Off`,
one `Toggle` prints the line of `On`; and `start()` followed by three `Toggle`
prints the four lines in turn. -/
theorem switch_toggles_witness :
    (assign () SwitchState.Off Switch.boot).current_state_ptr () = some SwitchState.Off
      ∧ (Fsm.dispatch Switch () SwitchEvent.Toggle (assign () SwitchState.Off Switch.boot)).map
            World.globals
          = some ["* Closing ciruit (light goes ON)"]
      ∧ (Switch.run 3).map World.globals
          = some ["* Opening ciruit (light goes OFF)", "* Closing ciruit (light goes ON)",
                  "* Opening ciruit (light goes OFF)", "* Closing ciruit (light goes ON)"] :=
  ⟨rfl, by
    rw [(switch_toggles.2.1 (assign () SwitchState.Off Switch.boot) rfl).1]
    rfl, rfl⟩

end SwitchToggle

/-! ## State content, flavours, reset, self-transition -/

section Frames

variable {M : Type} {σ : M → Type} {E D G : Type} [DecidableEq M] [∀ F, DecidableEq (σ F)]

theorem store_read (F : M) (S : σ F) (d : D) (w : World M σ D G) :
    Fsm.state F S (store F S d w) = d := by
  simp [Fsm.state, store]

theorem store_other (F F1 : M) (S : σ F) (T : σ F1) (d : D) (w : World M σ D G)
    (h : (⟨F1, T⟩ : Sigma σ) ≠ ⟨F, S⟩) :
    Fsm.state F1 T (store F S d w) = Fsm.state F1 T w := by
  by_cases hF : F1 = F
  · subst hF
    have hts : T ≠ S := fun e => h (by rw [e])
    simp [Fsm.state, store, Function.update_noteq hts]
  · simp [Fsm.state, store, Function.update_noteq hF]

theorem content_enter (H : Hooks M σ D G) (F : M)
    (hentry : ∀ F1 S, KeepsContent (H.entry F1 S)) : KeepsContent (Fsm.enter H F) := by
  intro w v h
  unfold Fsm.enter at h
  cases hc : w.current_state_ptr F with
  | none => simp [hc] at h
  | some c =>
    simp only [hc] at h
    exact hentry F c w v h

theorem content_leave (H : Hooks M σ D G) (F : M)
    (hexit : ∀ F1 S, KeepsContent (H.exit F1 S)) : KeepsContent (Fsm.leave H F) := by
  intro w v h
  unfold Fsm.leave at h
  cases hc : w.current_state_ptr F with
  | none => simp [hc] at h
  | some c =>
    simp only [hc] at h
    exact hexit F c w v h

theorem content_transit_action (H : Hooks M σ D G) (F : M) (S : σ F) (action : Act M σ D G)
    (hentry : ∀ F1 S, KeepsContent (H.entry F1 S))
    (hexit : ∀ F1 S, KeepsContent (H.exit F1 S))
    (haction : KeepsContent action) :
    KeepsContent (Fsm.transit_action H F S action) := by
  intro w v h
  unfold Fsm.transit_action at h
  obtain ⟨w1, h1, h⟩ := Option.bind_eq_some.mp h
  obtain ⟨w2, h2, h⟩ := Option.bind_eq_some.mp h
  rw [content_enter H F hentry _ v h, assign_value, haction w1 w2 h2,
    content_leave H F hexit w w1 h1]

theorem content_transit (H : Hooks M σ D G) (F : M) (S : σ F)
    (hentry : ∀ F1 S, KeepsContent (H.entry F1 S))
    (hexit : ∀ F1 S, KeepsContent (H.exit F1 S)) :
    KeepsContent (Fsm.transit H F S) := by
  intro w v h
  unfold Fsm.transit at h
  obtain ⟨w1, h1, h⟩ := Option.bind_eq_some.mp h
  rw [content_enter H F hentry _ v h, assign_value, content_leave H F hexit w w1 h1]

theorem content_transit_guarded (H : Hooks M σ D G) (F : M) (S : σ F)
    (action : Act M σ D G) (guard : Cond M σ D G)
    (hentry : ∀ F1 S, KeepsContent (H.entry F1 S))
    (hexit : ∀ F1 S, KeepsContent (H.exit F1 S))
    (haction : KeepsContent action) (hguard : CondKeepsContent guard) :
    KeepsContent (Fsm.transit_guarded H F S action guard) := by
  intro w v h
  unfold Fsm.transit_guarded at h
  obtain ⟨r, hr, h⟩ := Option.bind_eq_some.mp h
  obtain ⟨b, wg⟩ := r
  have hg := hguard w b wg hr
  cases b with
  | true =>
    simp only [if_true] at h
    rw [content_transit_action H F S action hentry hexit haction wg v h, hg]
  | false =>
    simp only [Bool.false_eq_true, if_false, Option.some.injEq] at h
    rw [← h]
    exact hg

theorem content_start (P : Program M σ E D G) (F : M)
    (hentry : ∀ F1 S, KeepsContent (P.entry F1 S)) : KeepsContent (Fsm.start P F) := by
  intro w v h
  simp only [Fsm.start, Fsm.set_initial_state, Option.some_bind] at h
  rw [content_enter P.toHooks F hentry _ v h, assign_value]

theorem transit_of_current (H : Hooks M σ D G) (F : M) (S : σ F) (w : World M σ D G)
    (c : σ F) (hc : w.current_state_ptr F = some c) :
    Fsm.transit H F S w = ((H.exit F c w).bind fun w1 => H.entry F S (assign F S w1)) := by
  unfold Fsm.transit
  rw [leave_of_current H F w c hc]
  simp only [enter_assign]

theorem transit_guarded_true (H : Hooks M σ D G) (F : M) (S : σ F) (action : Act M σ D G)
    (guard : Cond M σ D G) (w wg : World M σ D G) (hg : guard w = some (true, wg)) :
    Fsm.transit_guarded H F S action guard w = Fsm.transit_action H F S action wg := by
  simp [Fsm.transit_guarded, hg]

theorem transit_guarded_skip (H : Hooks M σ D G) (F : M) (S : σ F) (action : Act M σ D G)
    (guard : Cond M σ D G) (w wg : World M σ D G) (hg : guard w = some (false, wg)) :
    Fsm.transit_guarded H F S action guard w = some wg := by
  simp [Fsm.transit_guarded, hg]

theorem transit_action_lands (H : Hooks M σ D G) (F : M) (S : σ F) (action : Act M σ D G)
    (hentry : ∀ u v, H.entry F S u = some v → v.current_state_ptr F = u.current_state_ptr F)
    (w v : World M σ D G) (h : Fsm.transit_action H F S action w = some v) :
    v.current_state_ptr F = some S := by
  unfold Fsm.transit_action at h
  obtain ⟨w1, _, h2⟩ := Option.bind_eq_some.mp h
  obtain ⟨w2, _, h3⟩ := Option.bind_eq_some.mp h2
  rw [enter_assign] at h3
  rw [hentry _ _ h3, assign_current]

theorem transit_lands (H : Hooks M σ D G) (F : M) (S : σ F)
    (hentry : ∀ u v, H.entry F S u = some v → v.current_state_ptr F = u.current_state_ptr F)
    (w v : World M σ D G) (h : Fsm.transit H F S w = some v) :
    v.current_state_ptr F = some S := by
  unfold Fsm.transit at h
  obtain ⟨w1, _, h2⟩ := Option.bind_eq_some.mp h
  rw [enter_assign] at h2
  rw [hentry _ _ h2, assign_current]

theorem start_lands (P : Program M σ E D G) (F : M)
    (hentry : ∀ u v, P.entry F (P.initial F) u = some v →
      v.current_state_ptr F = u.current_state_ptr F)
    (w v : World M σ D G) (h : Fsm.start P F w = some v) :
    v.current_state_ptr F = some (P.initial F) := by
  simp only [Fsm.start, Fsm.set_initial_state, Option.some_bind] at h
  rw [enter_assign] at h
  rw [hentry _ _ h, assign_current]

/-- C15: `state<S>()` reads one slot per state: what is written through it is
read back, and no other slot nor any pointer changes by the write.  The
assignment of the pointer makes the slot of its state current and changes the
pointer only, and `set_initial_state()` is that assignment for the initial
state.  `start()` is the entry hook of the initial state run on that storage,
`transit<T>()` is the exit hook of the current state and then the entry hook
of `T` run with the slot of `T` current, `transit<T>(action)` has the action
in between, and the guarded form is `transit<T>(action)` from what a true
guard left and nothing after a false one: no step of the library writes a
state object.  So the content `d` written to the slot of `S` before a
transition to `S` is what the entry hook of `S` finds there when the exit hook
(and the action) leave the content alone, and what `state<S>()` reads after
the call, with `S` current, when all the user code run leaves it alone and the
entry hook of `S` does not move the pointer; the same for `start()` and the
initial state. -/
theorem state_content_kept (P : Program M σ E D G) (F : M) (S : σ F) (d : D)
    (w : World M σ D G) :
    Fsm.state F S (store F S d w) = d
      ∧ (∀ (F1 : M) (T : σ F1), (⟨F1, T⟩ : Sigma σ) ≠ ⟨F, S⟩ →
          Fsm.state F1 T (store F S d w) = Fsm.state F1 T w)
      ∧ (store F S d w).current_state_ptr = w.current_state_ptr
      ∧ (∀ (F1 : M) (T : σ F1) (u : World M σ D G),
          (assign F1 T u).value = u.value ∧ (assign F1 T u).globals = u.globals)
      ∧ (∀ (F1 : M) (u v : World M σ D G),
          Fsm.set_initial_state P F1 u = some v → v.value = u.value)
      ∧ (Fsm.start P F (store F S d w)
            = P.entry F (P.initial F) (assign F (P.initial F) (store F S d w))
          ∧ Fsm.state F S (assign F (P.initial F) (store F S d w)) = d)
      ∧ (∀ (F1 : M) (T : σ F1) (action : Act M σ D G) (u : World M σ D G) (c : σ F1),
          u.current_state_ptr F1 = some c →
          Fsm.transit_action P.toHooks F1 T action u
            = ((P.exit F1 c u).bind fun u1 =>
                (action u1).bind fun u2 => P.entry F1 T (assign F1 T u2)))
      ∧ ((∀ F1 T, KeepsContent (P.entry F1 T)) → (∀ F1 T, KeepsContent (P.exit F1 T)) →
          KeepsContent (Fsm.start P F)
            ∧ (∀ T, KeepsContent (Fsm.transit P.toHooks F T))
            ∧ (∀ T action, KeepsContent action →
                KeepsContent (Fsm.transit_action P.toHooks F T action))
            ∧ (∀ T action guard, KeepsContent action → CondKeepsContent guard →
                KeepsContent (Fsm.transit_guarded P.toHooks F T action guard)))
      ∧ (∀ (F1 : M) (T : σ F1) (u : World M σ D G),
          (assign F1 T u).current_state_ptr F1 = some T
            ∧ Fsm.set_initial_state P F1 u = some (assign F1 (P.initial F1) u))
      ∧ (∀ (F1 : M) (T : σ F1) (u : World M σ D G) (c : σ F1),
          u.current_state_ptr F1 = some c →
          Fsm.transit P.toHooks F1 T u
            = ((P.exit F1 c u).bind fun u1 => P.entry F1 T (assign F1 T u1)))
      ∧ (∀ (F1 : M) (T : σ F1) (action : Act M σ D G) (guard : Cond M σ D G)
          (u ug : World M σ D G),
          (guard u = some (true, ug) →
              Fsm.transit_guarded P.toHooks F1 T action guard u
                = Fsm.transit_action P.toHooks F1 T action ug)
            ∧ (guard u = some (false, ug) →
              Fsm.transit_guarded P.toHooks F1 T action guard u = some ug))
      ∧ (∀ (c : σ F) (u1 : World M σ D G), w.current_state_ptr F = some c →
          KeepsContent (P.exit F c) → P.exit F c (store F S d w) = some u1 →
          Fsm.transit P.toHooks F S (store F S d w) = P.entry F S (assign F S u1)
            ∧ (assign F S u1).current_state_ptr F = some S
            ∧ Fsm.state F S (assign F S u1) = d)
      ∧ (∀ (c : σ F) (action : Act M σ D G) (u1 u2 : World M σ D G),
          w.current_state_ptr F = some c →
          KeepsContent (P.exit F c) → KeepsContent action →
          P.exit F c (store F S d w) = some u1 → action u1 = some u2 →
          Fsm.transit_action P.toHooks F S action (store F S d w)
              = P.entry F S (assign F S u2)
            ∧ (assign F S u2).current_state_ptr F = some S
            ∧ Fsm.state F S (assign F S u2) = d)
      ∧ ((∀ F1 T, KeepsContent (P.entry F1 T)) → (∀ F1 T, KeepsContent (P.exit F1 T)) →
          (∀ u v, P.entry F S u = some v → v.current_state_ptr F = u.current_state_ptr F) →
          ∀ v : World M σ D G,
            (Fsm.transit P.toHooks F S (store F S d w) = some v →
                Fsm.is_in_state F S v = true ∧ Fsm.state F S v = d)
              ∧ (∀ action, KeepsContent action →
                  Fsm.transit_action P.toHooks F S action (store F S d w) = some v →
                  Fsm.is_in_state F S v = true ∧ Fsm.state F S v = d)
              ∧ (∀ action guard, KeepsContent action → CondKeepsContent guard →
                  (guard (store F S d w)).map Prod.fst = some true →
                  Fsm.transit_guarded P.toHooks F S action guard (store F S d w) = some v →
                  Fsm.is_in_state F S v = true ∧ Fsm.state F S v = d))
      ∧ ((∀ F1 T, KeepsContent (P.entry F1 T)) →
          (∀ u v, P.entry F (P.initial F) u = some v →
            v.current_state_ptr F = u.current_state_ptr F) →
          ∀ v : World M σ D G,
            Fsm.start P F (store F (P.initial F) d w) = some v →
            Fsm.is_in_state F (P.initial F) v = true
              ∧ Fsm.state F (P.initial F) v = d) := by
  have hread : ∀ (T : σ F) (u : World M σ D G), u.value = (store F T d w).value →
      Fsm.state F T u = d := by
    intro T u hu
    simp only [Fsm.state, hu]
    exact store_read F T d w
  have hin : ∀ (T : σ F) (v : World M σ D G), v.current_state_ptr F = some T →
      Fsm.is_in_state F T v = true := by
    intro T v hv
    simp [Fsm.is_in_state, hv]
  refine ⟨store_read F S d w, fun F1 T h => store_other F F1 S T d w h, rfl,
    fun F1 T u => ⟨rfl, rfl⟩, ?_, ⟨?_, ?_⟩, ?_, ?_, ?_, ?_, ?_, ?_, ?_, ?_, ?_⟩
  · intro F1 u v h
    simp only [Fsm.set_initial_state, Option.some.injEq] at h
    rw [← h]
    rfl
  · simp only [Fsm.start, Fsm.set_initial_state, Option.some_bind]
    exact enter_assign P.toHooks F (P.initial F) _
  · exact store_read F S d w
  · intro F1 T action u c hc
    exact transit_action_of_current P.toHooks F1 T action u c hc
  · intro hentry hexit
    exact ⟨content_start P F hentry,
      fun T => content_transit P.toHooks F T hentry hexit,
      fun T action ha => content_transit_action P.toHooks F T action hentry hexit ha,
      fun T action guard ha hg =>
        content_transit_guarded P.toHooks F T action guard hentry hexit ha hg⟩
  · intro F1 T u
    exact ⟨assign_current F1 T u, rfl⟩
  · intro F1 T u c hc
    exact transit_of_current P.toHooks F1 T u c hc
  · intro F1 T action guard u ug
    exact ⟨fun hg => transit_guarded_true P.toHooks F1 T action guard u ug hg,
      fun hg => transit_guarded_skip P.toHooks F1 T action guard u ug hg⟩
  · intro c u1 hc hkeep h1
    refine ⟨?_, assign_current F S u1, ?_⟩
    · rw [transit_of_current P.toHooks F S (store F S d w) c hc, h1]
      rfl
    · exact hread S (assign F S u1) ((assign_value F S u1).trans (hkeep _ u1 h1))
  · intro c action u1 u2 hc hkeep haction h1 h2
    refine ⟨?_, assign_current F S u2, ?_⟩
    · rw [transit_action_of_current P.toHooks F S action (store F S d w) c hc, h1]
      simp only [Option.some_bind, h2]
    · exact hread S (assign F S u2)
        ((assign_value F S u2).trans ((haction u1 u2 h2).trans (hkeep _ u1 h1)))
  · intro hentry hexit hstay v
    refine ⟨?_, ?_, ?_⟩
    · intro hv
      exact ⟨hin S v (transit_lands P.toHooks F S hstay _ v hv),
        hread S v (content_transit P.toHooks F S hentry hexit _ v hv)⟩
    · intro action ha hv
      exact ⟨hin S v (transit_action_lands P.toHooks F S action hstay _ v hv),
        hread S v (content_transit_action P.toHooks F S action hentry hexit ha _ v hv)⟩
    · intro action guard ha hg htrue hv
      have hval := content_transit_guarded P.toHooks F S action guard hentry hexit ha hg _ v hv
      refine ⟨hin S v ?_, hread S v hval⟩
      cases hgw : guard (store F S d w) with
      | none => simp [hgw] at htrue
      | some r =>
        obtain ⟨b, ug⟩ := r
        rw [hgw] at htrue
        simp only [Option.map_some', Option.some.injEq] at htrue
        subst htrue
        rw [transit_guarded_true P.toHooks F S action guard _ ug hgw] at hv
        exact transit_action_lands P.toHooks F S action hstay ug v hv
  · intro hentry hstay v hv
    exact ⟨hin _ v (start_lands P F hstay _ v hv),
      hread _ v (content_start P F hentry _ v hv)⟩

/-- C16: the hooks of `MealyMachine` and the exit hook of `MooreMachine`
return the storage they are given.  For a machine whose hooks are those of
`MealyMachine`, `transit<S>(action)` is the action followed by the assignment
of the pointer, and `transit<S>()` is the assignment alone.  For a machine
whose exit hook is the one of `MooreMachine`, the exit step of a transition
changes nothing whatever the current state: `transit<S>(action)` is the
action, the assignment and the entry hook of `S`. -/
theorem flavour_transitions (H : Hooks M σ D G) (F : M) :
    (∀ w : World M σ D G,
        (MealyMachine.entry w : Option (World M σ D G)) = some w
          ∧ (MealyMachine.exit w : Option (World M σ D G)) = some w
          ∧ (MooreMachine.exit w : Option (World M σ D G)) = some w)
      ∧ ((H.entry F = fun _ => MealyMachine.entry) → (H.exit F = fun _ => MealyMachine.exit) →
          ∀ (S c : σ F) (action : Act M σ D G) (w : World M σ D G),
            w.current_state_ptr F = some c →
            Fsm.transit_action H F S action w = (action w).map (assign F S)
              ∧ Fsm.transit H F S w = some (assign F S w))
      ∧ ((H.exit F = fun _ => MooreMachine.exit) →
          ∀ (S c : σ F) (action : Act M σ D G) (w : World M σ D G),
            w.current_state_ptr F = some c →
            Fsm.leave H F w = some w
              ∧ Fsm.transit_action H F S action w
                  = ((action w).bind fun w2 => H.entry F S (assign F S w2))
              ∧ Fsm.transit H F S w = H.entry F S (assign F S w)) := by
  refine ⟨fun w => ⟨rfl, rfl, rfl⟩, ?_, ?_⟩
  · intro hentry hexit S c action w hc
    have hl : Fsm.leave H F w = some w := by
      rw [leave_of_current H F w c hc, hexit]
      rfl
    constructor
    · unfold Fsm.transit_action
      rw [hl]
      simp only [Option.some_bind, enter_assign, hentry]
      cases action w <;> rfl
    · unfold Fsm.transit
      rw [hl]
      simp only [Option.some_bind, enter_assign, hentry]
      rfl
  · intro hexit S c action w hc
    have hl : Fsm.leave H F w = some w := by
      rw [leave_of_current H F w c hc, hexit]
      rfl
    refine ⟨hl, ?_, ?_⟩
    · unfold Fsm.transit_action
      rw [hl]
      simp only [Option.some_bind, enter_assign]
    · unfold Fsm.transit
      rw [hl]
      simp only [Option.some_bind, enter_assign]

theorem list_reset_default (P : Program M σ E D G) (FF : List M)
    (h : ∀ F, F ∈ FF → P.reset F = Fsm.reset) (w : World M σ D G) :
    FsmList.reset P FF w = some w := by
  induction FF with
  | nil => rfl
  | cons F FF ih =>
    simp only [FsmList.reset]
    rw [h F (List.mem_cons_self F FF)]
    simp only [Fsm.reset, Option.some_bind]
    exact ih fun F1 h1 => h F1 (List.mem_cons_of_mem F h1)

/-- C18: `Fsm<F>::reset()` returns the storage it is given; so on a list whose
machines all have it as their `reset()`, `FsmList::reset()` returns the
storage it is given, whatever the hooks, the reactions and the initial states
are: no pointer, no state content and no global data changes, and each
machine is in the state it was in, not back in its initial state. -/
theorem list_reset_does_nothing (P : Program M σ E D G) (FF : List M)
    (h : ∀ F, F ∈ FF → P.reset F = Fsm.reset) (w : World M σ D G) :
    (Fsm.reset w : Option (World M σ D G)) = some w
      ∧ FsmList.reset P FF w = some w
      ∧ (∀ Q : Program M σ E D G, (∀ F, F ∈ FF → Q.reset F = Fsm.reset) →
          FsmList.reset Q FF w = some w)
      ∧ (∀ v, FsmList.reset P FF w = some v →
          ∀ (F : M) (S : σ F), Fsm.is_in_state F S v = Fsm.is_in_state F S w) := by
  refine ⟨rfl, list_reset_default P FF h w,
    fun Q hQ => list_reset_default Q FF hQ w, ?_⟩
  intro v hv F S
  rw [list_reset_default P FF h w] at hv
  cases hv
  rfl

/-- C19 (amended): `transit<S>()` and `transit<S>(action)` called while `S`
is current are not skipped: they are the exit hook of `S`, then the action if
any, then the pointer set to `S` again, then the entry hook of `S`, which
finds `S` current; and the pointer designates `S` after the call, as before
it, when the entry hook of `S` leaves the pointer as it finds it. -/
theorem self_transition (H : Hooks M σ D G) (F : M) (S : σ F) (w : World M σ D G)
    (hc : w.current_state_ptr F = some S) :
    Fsm.transit H F S w = ((H.exit F S w).bind fun w1 => H.entry F S (assign F S w1))
      ∧ (∀ action : Act M σ D G,
          Fsm.transit_action H F S action w
            = ((H.exit F S w).bind fun w1 =>
                (action w1).bind fun w2 => H.entry F S (assign F S w2)))
      ∧ (∀ w2 : World M σ D G, (assign F S w2).current_state_ptr F = some S)
      ∧ ((∀ u v, H.entry F S u = some v → v.current_state_ptr F = u.current_state_ptr F) →
          ∀ v, (Fsm.transit H F S w = some v →
                  v.current_state_ptr F = w.current_state_ptr F)
            ∧ (∀ action : Act M σ D G, Fsm.transit_action H F S action w = some v →
                  v.current_state_ptr F = w.current_state_ptr F)) := by
  have ht : Fsm.transit H F S w
      = ((H.exit F S w).bind fun w1 => H.entry F S (assign F S w1)) := by
    unfold Fsm.transit
    rw [leave_of_current H F w S hc]
    simp only [enter_assign]
  refine ⟨ht, fun action => transit_action_of_current H F S action w S hc,
    fun w2 => assign_current F S w2, ?_⟩
  intro hentry v
  constructor
  · intro hv
    rw [ht] at hv
    obtain ⟨w1, _, h2⟩ := Option.bind_eq_some.mp hv
    rw [hentry _ _ h2, assign_current, hc]
  · intro action hv
    rw [transit_action_of_current H F S action w S hc] at hv
    obtain ⟨w1, _, hv⟩ := Option.bind_eq_some.mp hv
    obtain ⟨w2, _, h2⟩ := Option.bind_eq_some.mp hv
    rw [hentry _ _ h2, assign_current, hc]

end Frames

/-! ## Content, flavours, reset and self-transition on the test programs -/

section FrameChecks

open Recorder

theorem recorder_note_content (F : Machine) (who : Option State → Seen) :
    KeepsContent (note F who) := by
  intro w v h
  simp only [note, Option.some.injEq] at h
  rw [← h]

theorem recorder_guard_content (b : Bool) : CondKeepsContent (guard b) := by
  intro w c v h
  simp only [Recorder.guard, note, Option.map_some', Option.some.injEq, Prod.mk.injEq] at h
  rw [← h.2]

/-- Witness for C15 on the recording program: `5` written to the object of the
initial state `C` before `start()` is what `state<C>()` reads after it, with
`C` current; and `5` written to the object of `B` (which held `7`) before
`transit<B>()`, or before a guarded `transit<B>(action, guard)` with a true
guard, called in state `A`, is what `state<B>()` reads after it, with `B`
current. -/
theorem state_content_kept_witness :
    (∀ F1 T, KeepsContent (program.entry F1 T))
      ∧ (∀ F1 T, KeepsContent (program.exit F1 T))
      ∧ (∀ T u v, program.entry Machine.first T u = some v →
          v.current_state_ptr Machine.first = u.current_state_ptr Machine.first)
      ∧ (∃ v, Fsm.start program Machine.first (store Machine.first State.C 5 boot) = some v
          ∧ Fsm.is_in_state Machine.first State.C v = true
          ∧ Fsm.state Machine.first State.C v = 5)
      ∧ in_A.current_state_ptr Machine.first = some State.A
      ∧ Fsm.state Machine.first State.B in_A = 7
      ∧ (∃ v, Fsm.transit program.toHooks Machine.first State.B
            (store Machine.first State.B 5 in_A) = some v
          ∧ Fsm.is_in_state Machine.first State.B v = true
          ∧ Fsm.state Machine.first State.B v = 5)
      ∧ (guard true (store Machine.first State.B 5 in_A)).map Prod.fst = some true
      ∧ (∃ v, Fsm.transit_guarded program.toHooks Machine.first State.B action (guard true)
            (store Machine.first State.B 5 in_A) = some v
          ∧ Fsm.is_in_state Machine.first State.B v = true
          ∧ Fsm.state Machine.first State.B v = 5) := by
  have hentry : ∀ F1 T, KeepsContent (program.entry F1 T) :=
    fun F1 T => recorder_note_content F1 (Seen.entry F1 T)
  have hexit : ∀ F1 T, KeepsContent (program.exit F1 T) :=
    fun F1 T => recorder_note_content F1 (Seen.exit F1 T)
  have hstay : ∀ T u v, program.entry Machine.first T u = some v →
      v.current_state_ptr Machine.first = u.current_state_ptr Machine.first :=
    fun T u v h => congrFun (recorder_entry_keeps Machine.first T u v h) _
  have haction : KeepsContent action := recorder_note_content Machine.first Seen.action
  obtain ⟨v0, hv0⟩ :
      ∃ v, Fsm.start program Machine.first (store Machine.first State.C 5 boot) = some v :=
    ⟨_, rfl⟩
  obtain ⟨v1, hv1⟩ :
      ∃ v, Fsm.transit program.toHooks Machine.first State.B
        (store Machine.first State.B 5 in_A) = some v :=
    ⟨_, rfl⟩
  obtain ⟨v2, hv2⟩ :
      ∃ v, Fsm.transit_guarded program.toHooks Machine.first State.B action (guard true)
        (store Machine.first State.B 5 in_A) = some v :=
    ⟨_, rfl⟩
  obtain ⟨_, _, _, _, _, _, _, _, _, _, _, _, _, _, hstart⟩ :=
    state_content_kept program Machine.first State.C 5 boot
  obtain ⟨_, _, _, _, _, _, _, _, _, _, _, _, _, hmove, _⟩ :=
    state_content_kept program Machine.first State.B 5 in_A
  have hs := hstart hentry (hstay State.C) v0 hv0
  have hm1 := (hmove hentry hexit (hstay State.B) v1).1 hv1
  have hm2 := (hmove hentry hexit (hstay State.B) v2).2.2 action (guard true) haction
    (recorder_guard_content true) rfl hv2
  exact ⟨hentry, hexit, hstay, ⟨v0, hv0, hs.1, hs.2⟩, rfl, rfl, ⟨v1, hv1, hm1.1, hm1.2⟩, rfl,
    ⟨v2, hv2, hm2.1, hm2.2⟩⟩

/-- Witness for C16: with the hooks of `MealyMachine`, `transit<B>(action)`
from `A` records the action alone; and the hooks of the light switch have the
exit hook of `MooreMachine`. -/
theorem flavour_transitions_witness :
    mealy_hooks.entry Machine.first = (fun _ => MealyMachine.entry)
      ∧ mealy_hooks.exit Machine.first = (fun _ => MealyMachine.exit)
      ∧ in_A.current_state_ptr Machine.first = some State.A
      ∧ (Fsm.transit_action mealy_hooks Machine.first State.B action in_A).map World.globals
          = some [Seen.action (some State.A)]
      ∧ Switch.hooks.exit () = (fun _ => MooreMachine.exit)
      ∧ Fsm.leave Switch.hooks () (assign () SwitchState.On Switch.boot)
          = some (assign () SwitchState.On Switch.boot) :=
  ⟨rfl, rfl, rfl, by
    rw [((flavour_transitions mealy_hooks Machine.first).2.1 rfl rfl
      State.B State.A action in_A rfl).1]
    rfl,
   rfl,
   ((flavour_transitions Switch.hooks ()).2.2 rfl SwitchState.Off SwitchState.On
      (fun w => some w) (assign () SwitchState.On Switch.boot) rfl).1⟩

/-- Witness for C18 on the recording program: `reset()` on the list of both
machines leaves `first` in `A`, which is not its initial state `C`. -/
theorem list_reset_does_nothing_witness :
    (∀ F, F ∈ [Machine.first, Machine.second] → program.reset F = Fsm.reset)
      ∧ FsmList.reset program [Machine.first, Machine.second] in_A = some in_A
      ∧ Fsm.is_in_state Machine.first State.A in_A = true
      ∧ program.initial Machine.first = State.C :=
  ⟨fun _ _ => rfl,
   (list_reset_does_nothing program [Machine.first, Machine.second]
      (fun _ _ => rfl) in_A).2.1,
   rfl, rfl⟩

/-- Witness for C19 on the recording program: `transit<A>()` called in `A`
records the exit hook and the entry hook of `A`, and leaves the machine in
`A`. -/
theorem self_transition_witness :
    in_A.current_state_ptr Machine.first = some State.A
      ∧ (∀ u v, hooks.entry Machine.first State.A u = some v →
          v.current_state_ptr Machine.first = u.current_state_ptr Machine.first)
      ∧ (Fsm.transit hooks Machine.first State.A in_A).map World.globals
          = some [Seen.exit Machine.first State.A (some State.A),
                  Seen.entry Machine.first State.A (some State.A)]
      ∧ (∀ v, Fsm.transit hooks Machine.first State.A in_A = some v →
          v.current_state_ptr Machine.first = in_A.current_state_ptr Machine.first) :=
  ⟨rfl,
   fun u v h => congrFun (recorder_entry_keeps _ _ u v h) _,
   rfl,
   fun v => ((self_transition hooks Machine.first State.A in_A rfl).2.2.2
      (fun u v h => congrFun (recorder_entry_keeps _ _ u v h) _) v).1⟩

/-- Counterexample for C19 as stated: with an entry hook of `A` that calls
`transit<C>()`, `transit<A>()` called in `A` runs the exit hook and the entry
hook of `A`, and the pointer designates `C` after the call, not `A` as before
it. -/
theorem self_transition_through_transient_state :
    in_A.current_state_ptr Machine.first = some State.A
      ∧ (Fsm.transit transient_hooks Machine.first State.A in_A).map
            (fun v => v.current_state_ptr Machine.first)
          = some (some State.C)
      ∧ (Fsm.transit transient_hooks Machine.first State.A in_A).map World.globals
          = some [Seen.exit Machine.first State.A (some State.A),
                  Seen.entry Machine.first State.A (some State.A),
                  Seen.exit Machine.first State.A (some State.A),
                  Seen.entry Machine.first State.C (some State.C)]
      ∧ some State.C ≠ some State.A :=
  ⟨rfl, rfl, rfl, by decide⟩

end FrameChecks

/-! ## The elevator -/

section ElevatorFacts

variable {M : Type} {σ : M → Type} {E D G : Type} [DecidableEq M]
variable {MS MG : Type}

theorem elevator_react_motor_eq (env : ElevatorEnv MS MG) (c : ElevatorState)
    (event : MotorEvent) :
    Elevator.react env ElevatorMachine.Elevator c (ElevatorEvent.motor event)
      = env.elevator_react_motor event := by
  cases c <;> rfl

theorem send_event_eq (env : ElevatorEnv MS MG) (event : MotorEvent) :
    send_event env event
      = FsmList.dispatch (Elevator env) fsm_list (ElevatorEvent.motor event) := by
  funext w
  simp only [send_event, fsm_list, FsmList.dispatch, Fsm.dispatch]
  cases hm : w.current_state_ptr ElevatorMachine.Motor with
  | none => rfl
  | some m =>
    have h1 : (Elevator.motor_events env).react ElevatorMachine.Motor m event w
        = (Elevator env).react ElevatorMachine.Motor m (ElevatorEvent.motor event) w := rfl
    simp only [h1]
    cases (Elevator env).react ElevatorMachine.Motor m (ElevatorEvent.motor event) w with
    | none => rfl
    | some w1 =>
      simp only [Option.some_bind]
      cases he : w1.current_state_ptr ElevatorMachine.Elevator with
      | none => rfl
      | some c =>
        simp only [Option.some_bind]
        have h2 : (Elevator env).react ElevatorMachine.Elevator c (ElevatorEvent.motor event)
            = env.elevator_react_motor event := elevator_react_motor_eq env c event
        rw [h2]
        rfl

theorem int_add_exact (a b : Int) (hlo : -2147483648 ≤ a + b) (hhi : a + b < 2147483648) :
    int_add a b = a + b := by
  unfold int_add
  omega

/-- C14: `dispatch(e)` is the reaction to `e` of the state the pointer
designates, and nothing else.  In the elevator, `Panic` overrides no reaction:
with `Panic` current, a `Call` or a `FloorSensor` event runs the reaction of
the class `Elevator`, which prints its line and changes nothing else; the
machine is still in `Panic`, and `current_floor` and `dest_floor` are as
before. -/
theorem dispatch_runs_current_reaction (P : Program M σ E D G) (env : ElevatorEnv MS MG) :
    (∀ (F : M) (event : E) (w : World M σ D G) (c : σ F),
        w.current_state_ptr F = some c → Fsm.dispatch P F event w = P.react F c event w)
      ∧ (∀ (w : ElevatorWorld MS MG) (floor : Int),
          w.current_state_ptr ElevatorMachine.Elevator = some ElevatorState.Panic →
          Fsm.dispatch (Elevator env) ElevatorMachine.Elevator (ElevatorEvent.Call floor) w
              = Elevator.react_Call w
            ∧ Fsm.dispatch (Elevator env) ElevatorMachine.Elevator
                  (ElevatorEvent.FloorSensor floor) w
              = Elevator.react_FloorSensor w
            ∧ (∀ event, event = ElevatorEvent.Call floor
                  ∨ event = ElevatorEvent.FloorSensor floor →
                ∃ v, Fsm.dispatch (Elevator env) ElevatorMachine.Elevator event w = some v
                  ∧ v.current_state_ptr = w.current_state_ptr
                  ∧ v.current_state_ptr ElevatorMachine.Elevator = some ElevatorState.Panic
                  ∧ v.value = w.value
                  ∧ v.globals.current_floor = w.globals.current_floor
                  ∧ v.globals.dest_floor = w.globals.dest_floor
                  ∧ v.globals.motor = w.globals.motor
                  ∧ ∃ line, v.globals.output = w.globals.output ++ [line])) := by
  refine ⟨?_, ?_⟩
  · intro F event w c hc
    simp only [Fsm.dispatch, hc]
  · intro w floor hc
    have h1 : Fsm.dispatch (Elevator env) ElevatorMachine.Elevator (ElevatorEvent.Call floor) w
        = Elevator.react_Call w := by
      simp only [Fsm.dispatch, hc]
      rfl
    have h2 : Fsm.dispatch (Elevator env) ElevatorMachine.Elevator
        (ElevatorEvent.FloorSensor floor) w = Elevator.react_FloorSensor w := by
      simp only [Fsm.dispatch, hc]
      rfl
    refine ⟨h1, h2, ?_⟩
    intro event hevent
    rcases hevent with e | e
    · rw [e, h1]
      exact ⟨_, rfl, rfl, hc, rfl, rfl, rfl, rfl, _, rfl⟩
    · rw [e, h2]
      exact ⟨_, rfl, rfl, hc, rfl, rfl, rfl, rfl, _, rfl⟩

/-- C17 on the code: `CallMaintenance` and `CallFirefighters` only print, but
the action of `Idle::react(Call const &)` is a dispatch: when `dest_floor` is
above `current_floor` it is `fsm_list::dispatch(MotorUp())`, when below
`fsm_list::dispatch(MotorDown())`, that is the reaction of the current state
of `Motor` and then the one of `Elevator`; and a `Call` for another floor than
the current one, handled in `Idle`, runs `transit<Moving>` with that action. -/
theorem idle_action_dispatches (env : ElevatorEnv MS MG) (w : ElevatorWorld MS MG) :
    (CallMaintenance w
          = some { w with globals :=
              { w.globals with output := w.globals.output ++ ["*** calling maintenance ***"] } }
        ∧ CallFirefighters w
          = some { w with globals :=
              { w.globals with output := w.globals.output ++ ["*** calling firefighters ***"] } })
      ∧ (w.globals.dest_floor > w.globals.current_floor →
          Idle.action env w
            = FsmList.dispatch (Elevator env) fsm_list
                (ElevatorEvent.motor MotorEvent.MotorUp) w)
      ∧ (w.globals.dest_floor < w.globals.current_floor →
          Idle.action env w
            = FsmList.dispatch (Elevator env) fsm_list
                (ElevatorEvent.motor MotorEvent.MotorDown) w)
      ∧ (∀ (event : MotorEvent) (m : MS), w.current_state_ptr ElevatorMachine.Motor = some m →
          FsmList.dispatch (Elevator env) fsm_list (ElevatorEvent.motor event) w
            = (env.motor_react m (ElevatorEvent.motor event) w).bind
                (Fsm.dispatch (Elevator env) ElevatorMachine.Elevator
                  (ElevatorEvent.motor event)))
      ∧ (∀ floor : Int,
          w.current_state_ptr ElevatorMachine.Elevator = some ElevatorState.Idle →
          floor ≠ w.globals.current_floor →
          Fsm.dispatch (Elevator env) ElevatorMachine.Elevator (ElevatorEvent.Call floor) w
            = Fsm.transit_action (Elevator.hooks env) ElevatorMachine.Elevator
                ElevatorState.Moving (Idle.action env)
                { w with globals := { w.globals with dest_floor := floor } }) := by
  refine ⟨⟨rfl, rfl⟩, ?_, ?_, ?_, ?_⟩
  · intro h
    rw [← send_event_eq]
    simp only [Idle.action, if_pos h]
  · intro h
    have hn : ¬ w.globals.dest_floor > w.globals.current_floor := by omega
    rw [← send_event_eq]
    simp only [Idle.action, if_neg hn, if_pos h]
  · intro event m hm
    simp only [fsm_list, FsmList.dispatch, Fsm.dispatch, hm]
    have hmotor : (Elevator env).react ElevatorMachine.Motor m (ElevatorEvent.motor event) w
        = env.motor_react m (ElevatorEvent.motor event) w := rfl
    rw [hmotor]
    cases env.motor_react m (ElevatorEvent.motor event) w with
    | none => rfl
    | some w1 =>
      simp only [Option.some_bind]
      cases w1.current_state_ptr ElevatorMachine.Elevator with
      | none => rfl
      | some c =>
        simp only []
        cases (Elevator env).react ElevatorMachine.Elevator c (ElevatorEvent.motor event) w1 <;> rfl
  · intro floor hc hne
    simp only [Fsm.dispatch, hc]
    show Idle.react env floor w = _
    simp only [Idle.react, if_neg hne]

theorem transit_as_action (H : Hooks M σ D G) (F : M) (S : σ F) :
    Fsm.transit H F S = Fsm.transit_action H F S (fun w => some w) := by
  funext w
  simp [Fsm.transit, Fsm.transit_action]

theorem send_event_keeps (env : ElevatorEnv MS MG) (hq : env.Quiet) (event : MotorEvent) :
    KeepsElevator (send_event env event) := by
  intro w v h
  simp only [send_event, FsmList.dispatch] at h
  obtain ⟨w1, h1, h⟩ := Option.bind_eq_some.mp h
  obtain ⟨w2, h2, h⟩ := Option.bind_eq_some.mp h
  have hv2 : w2 = v := by
    simp only [Option.some.injEq] at h
    exact h
  subst hv2
  have k1 : w1.globals.current_floor = w.globals.current_floor
      ∧ w1.current_state_ptr ElevatorMachine.Elevator
          = w.current_state_ptr ElevatorMachine.Elevator := by
    unfold Fsm.dispatch at h1
    cases hm : w.current_state_ptr ElevatorMachine.Motor with
    | none => simp [hm] at h1
    | some m =>
      simp only [hm] at h1
      exact hq.motor m event w w1 h1
  have k2 : w2.globals.current_floor = w1.globals.current_floor
      ∧ w2.current_state_ptr ElevatorMachine.Elevator
          = w1.current_state_ptr ElevatorMachine.Elevator := by
    unfold Fsm.dispatch at h2
    cases he : w1.current_state_ptr ElevatorMachine.Elevator with
    | none => simp [he] at h2
    | some c =>
      simp only [he] at h2
      have hk := hq.elevator event w1 w2 h2
      rw [he] at hk
      exact hk
  exact ⟨k2.1.trans k1.1, k2.2.trans k1.2⟩

theorem elevator_transit_action_end (env : ElevatorEnv MS MG) (hq : env.Quiet)
    (S : ElevatorState) (hS : S ≠ ElevatorState.Moving) (action : ElevatorAct MS MG)
    (haction : KeepsElevator action) (u v : ElevatorWorld MS MG)
    (h : Fsm.transit_action (Elevator.hooks env) ElevatorMachine.Elevator S action u = some v) :
    v.globals.current_floor = u.globals.current_floor
      ∧ v.current_state_ptr ElevatorMachine.Elevator = some S := by
  unfold Fsm.transit_action at h
  obtain ⟨u1, h1, h⟩ := Option.bind_eq_some.mp h
  obtain ⟨u2, h2, h⟩ := Option.bind_eq_some.mp h
  rw [enter_assign] at h
  have k1 : u1.globals.current_floor = u.globals.current_floor := by
    unfold Fsm.leave at h1
    cases hc : u.current_state_ptr ElevatorMachine.Elevator with
    | none => simp [hc] at h1
    | some c =>
      simp only [hc] at h1
      exact (hq.exit u u1 h1).1
  have k2 := haction u1 u2 h2
  have hentry : (Elevator.hooks env).entry ElevatorMachine.Elevator S
      = send_event env MotorEvent.MotorStop := by
    cases S with
    | Panic => rfl
    | Moving => exact absurd rfl hS
    | Idle => rfl
  rw [hentry] at h
  have k3 := send_event_keeps env hq MotorEvent.MotorStop _ v h
  refine ⟨?_, ?_⟩
  · rw [k3.1, assign_globals, k2.1, k1]
  · rw [k3.2, assign_current]

/-- C20: with `Moving` current, a `FloorSensor` event runs `Moving::react`.
`d` being what `Motor::getDirection()` returns and the sum being the one of
`int`: if `e.floor` differs from `current_floor + d`, the reaction prints and
runs `transit<Panic>(CallMaintenance)` with `current_floor` as it was;
otherwise it prints, sets `current_floor` to `e.floor`, and then runs
`transit<Idle>()` if `e.floor` equals `dest_floor`, and returns with the
pointer still on `Moving` if it does not. -/
theorem moving_floor_sensor (env : ElevatorEnv MS MG) (w : ElevatorWorld MS MG) (floor : Int)
    (hc : w.current_state_ptr ElevatorMachine.Elevator = some ElevatorState.Moving) :
    Fsm.dispatch (Elevator env) ElevatorMachine.Elevator (ElevatorEvent.FloorSensor floor) w
        = Moving.react env floor w
      ∧ (floor ≠ int_add w.globals.current_floor (env.getDirection w) →
          ∃ line u, u = { w with globals :=
                { w.globals with output := w.globals.output ++ [line] } }
            ∧ u.globals.current_floor = w.globals.current_floor
            ∧ Moving.react env floor w
                = Fsm.transit_action (Elevator.hooks env) ElevatorMachine.Elevator
                    ElevatorState.Panic CallMaintenance u
            ∧ Moving.react env floor w
                = ((env.elevator_exit u).bind fun u1 =>
                    (CallMaintenance u1).bind fun u2 =>
                      send_event env MotorEvent.MotorStop
                        (assign ElevatorMachine.Elevator ElevatorState.Panic u2)))
      ∧ (floor = int_add w.globals.current_floor (env.getDirection w) →
          ∃ line u, u = { w with globals :=
                { w.globals with
                    output := w.globals.output ++ [line], current_floor := floor } }
            ∧ u.globals.current_floor = floor
            ∧ (floor = w.globals.dest_floor →
                Moving.react env floor w
                  = Fsm.transit (Elevator.hooks env) ElevatorMachine.Elevator
                      ElevatorState.Idle u)
            ∧ (floor ≠ w.globals.dest_floor →
                Moving.react env floor w = some u
                  ∧ u.current_state_ptr ElevatorMachine.Elevator
                      = some ElevatorState.Moving))
      ∧ (-2147483648 ≤ w.globals.current_floor + env.getDirection w →
          w.globals.current_floor + env.getDirection w < 2147483648 →
          int_add w.globals.current_floor (env.getDirection w)
            = w.globals.current_floor + env.getDirection w)
      ∧ (env.Quiet → ∀ v, Moving.react env floor w = some v →
          (floor ≠ int_add w.globals.current_floor (env.getDirection w) →
            v.current_state_ptr ElevatorMachine.Elevator = some ElevatorState.Panic
              ∧ v.globals.current_floor = w.globals.current_floor)
          ∧ (floor = int_add w.globals.current_floor (env.getDirection w) →
            v.globals.current_floor = floor
              ∧ (v.current_state_ptr ElevatorMachine.Elevator = some ElevatorState.Idle
                  ↔ floor = w.globals.dest_floor)
              ∧ (floor ≠ w.globals.dest_floor →
                  v.current_state_ptr ElevatorMachine.Elevator
                    = some ElevatorState.Moving))) := by
  refine ⟨?_, ?_, ?_, int_add_exact _ _, ?_⟩
  · simp only [Fsm.dispatch, hc]
    rfl
  · intro hne
    have hne1 : int_add w.globals.current_floor (env.getDirection w) ≠ floor :=
      fun e => hne e.symm
    refine ⟨"Floor sensor defect (expected "
        ++ toString (int_add w.globals.current_floor (env.getDirection w))
        ++ ", got " ++ toString floor ++ ")", _, rfl, rfl, ?_, ?_⟩
    · simp only [Moving.react, if_pos hne1, Elevator.print, Option.some_bind]
    · simp only [Moving.react, if_pos hne1, Elevator.print, Option.some_bind]
      exact transit_action_of_current (Elevator.hooks env) ElevatorMachine.Elevator
        ElevatorState.Panic CallMaintenance _ ElevatorState.Moving hc
  · intro heq
    have hne1 : ¬ int_add w.globals.current_floor (env.getDirection w) ≠ floor :=
      fun h => h heq.symm
    refine ⟨"Reached floor " ++ toString floor, _, rfl, rfl, ?_, ?_⟩
    · intro hd
      simp only [Moving.react, if_neg hne1, Elevator.print, Option.some_bind, if_pos hd]
    · intro hd
      refine ⟨?_, hc⟩
      simp only [Moving.react, if_neg hne1, Elevator.print, Option.some_bind, if_neg hd]
  · intro hq v hv
    have hmaint : KeepsElevator (CallMaintenance : ElevatorAct MS MG) := by
      intro a b hab
      simp only [CallMaintenance, Elevator.print, Option.some.injEq] at hab
      rw [← hab]
      exact ⟨rfl, rfl⟩
    have hnothing : KeepsElevator (fun a : ElevatorWorld MS MG => some a) := by
      intro a b hab
      cases hab
      exact ⟨rfl, rfl⟩
    constructor
    · intro hne
      have hne1 : int_add w.globals.current_floor (env.getDirection w) ≠ floor :=
        fun e => hne e.symm
      simp only [Moving.react, if_pos hne1, Elevator.print, Option.some_bind] at hv
      have hend := elevator_transit_action_end env hq ElevatorState.Panic (by decide)
        CallMaintenance hmaint _ v hv
      exact ⟨hend.2, hend.1⟩
    · intro heq
      have hne1 : ¬ int_add w.globals.current_floor (env.getDirection w) ≠ floor :=
        fun h => h heq.symm
      by_cases hd : floor = w.globals.dest_floor
      · simp only [Moving.react, if_neg hne1, Elevator.print, Option.some_bind, if_pos hd] at hv
        rw [transit_as_action (Elevator.hooks env) ElevatorMachine.Elevator
          ElevatorState.Idle] at hv
        have hend := elevator_transit_action_end env hq ElevatorState.Idle (by decide)
          (fun a => some a) hnothing _ v hv
        exact ⟨hend.1, ⟨fun _ => hd, fun _ => hend.2⟩, fun h => absurd hd h⟩
      · simp only [Moving.react, if_neg hne1, Elevator.print, Option.some_bind, if_neg hd,
          Option.some.injEq] at hv
        rw [← hv]
        refine ⟨rfl, ⟨fun h => ?_, fun h => absurd h hd⟩, fun _ => hc⟩
        rw [hc] at h
        cases h

end ElevatorFacts

/-! ## The elevator with the stand-in motor -/

section ElevatorChecks

/-- Witness for C14 with the stand-in motor: a `Call` dispatched to the
elevator in `Panic` prints the line of `Elevator::react(Call const &)` and
changes nothing else. -/
theorem dispatch_runs_current_reaction_witness :
    (test_world TestMotor.Stopped ElevatorState.Panic 0 0 0).current_state_ptr
        ElevatorMachine.Elevator = some ElevatorState.Panic
      ∧ (Fsm.dispatch (Elevator test_env) ElevatorMachine.Elevator (ElevatorEvent.Call 3)
            (test_world TestMotor.Stopped ElevatorState.Panic 0 0 0)).map summary
          = some (some TestMotor.Stopped, some ElevatorState.Panic, 0, 0, 0,
              ["Call event ignored"]) :=
  ⟨rfl, by
    rw [((dispatch_runs_current_reaction (Elevator test_env) test_env).2
      (test_world TestMotor.Stopped ElevatorState.Panic 0 0 0) 3 rfl).1]
    rfl⟩

/-- Witness for C17 with the stand-in motor: with `dest_floor` above
`current_floor` the action of `Idle` makes the motor leave `Stopped` for `Up`;
and `Call{1}` sent to the elevator idle at floor 0 ends with the elevator in
`Moving` and the motor in `Up`. -/
theorem idle_action_dispatches_witness :
    (test_world TestMotor.Stopped ElevatorState.Idle 0 1 0).globals.dest_floor
        > (test_world TestMotor.Stopped ElevatorState.Idle 0 1 0).globals.current_floor
      ∧ (Idle.action test_env (test_world TestMotor.Stopped ElevatorState.Idle 0 1 0)).map
            summary
          = some (some TestMotor.Up, some ElevatorState.Idle, 0, 1, 1, ["Motor: moving up"])
      ∧ (FsmList.dispatch (Elevator test_env) fsm_list (ElevatorEvent.Call 1)
            (test_world TestMotor.Stopped ElevatorState.Idle 0 0 0)).map summary
          = some (some TestMotor.Up, some ElevatorState.Moving, 0, 1, 1,
              ["Motor: moving up"]) :=
  ⟨by decide, by
    rw [(idle_action_dispatches test_env
      (test_world TestMotor.Stopped ElevatorState.Idle 0 1 0)).2.1 (by decide)]
    rfl, rfl⟩

theorem test_motor_transit_keeps (X : TestMotor) :
    KeepsElevator (Fsm.transit TestMotor.hooks ElevatorMachine.Motor X) := by
  intro w v h
  unfold Fsm.transit at h
  obtain ⟨w1, h1, h2⟩ := Option.bind_eq_some.mp h
  rw [enter_assign] at h2
  have e1 : w1 = w := by
    unfold Fsm.leave at h1
    cases hm : w.current_state_ptr ElevatorMachine.Motor with
    | none => simp [hm] at h1
    | some m =>
      simp only [hm, TestMotor.hooks, Option.some.injEq] at h1
      exact h1.symm
  rw [e1] at h2
  cases X <;>
    (simp only [TestMotor.hooks, TestMotor.entry, Option.some.injEq] at h2
     rw [← h2]
     exact ⟨rfl, rfl⟩)

theorem test_env_quiet : ElevatorEnv.Quiet test_env where
  exit := by
    intro w v h
    cases h
    exact ⟨rfl, rfl⟩
  motor := by
    intro m event
    cases event
    · exact test_motor_transit_keeps TestMotor.Up
    · exact test_motor_transit_keeps TestMotor.Down
    · exact test_motor_transit_keeps TestMotor.Stopped
  elevator := by
    intro event w v h
    cases h
    exact ⟨rfl, rfl⟩

/-- Witness for C20 with the stand-in motor, the elevator moving up from
floor 0 to floor 2: the sensor of floor 5 leads to `Panic` with
`current_floor` still 0; the sensor of floor 1 sets `current_floor` to 1 and
the elevator keeps moving; with `dest_floor` 1 it leads to `Idle`. -/
theorem moving_floor_sensor_witness :
    (test_world TestMotor.Up ElevatorState.Moving 0 2 1).current_state_ptr
        ElevatorMachine.Elevator = some ElevatorState.Moving
      ∧ ElevatorEnv.Quiet test_env
      ∧ (Fsm.dispatch (Elevator test_env) ElevatorMachine.Elevator (ElevatorEvent.FloorSensor 5)
            (test_world TestMotor.Up ElevatorState.Moving 0 2 1)).map summary
          = some (some TestMotor.Stopped, some ElevatorState.Panic, 0, 2, 0,
              ["Floor sensor defect (expected 1, got 5)", "*** calling maintenance ***",
               "Motor: stopped"])
      ∧ (Fsm.dispatch (Elevator test_env) ElevatorMachine.Elevator (ElevatorEvent.FloorSensor 1)
            (test_world TestMotor.Up ElevatorState.Moving 0 2 1)).map summary
          = some (some TestMotor.Up, some ElevatorState.Moving, 1, 2, 1, ["Reached floor 1"])
      ∧ (Fsm.dispatch (Elevator test_env) ElevatorMachine.Elevator (ElevatorEvent.FloorSensor 1)
            (test_world TestMotor.Up ElevatorState.Moving 0 1 1)).map summary
          = some (some TestMotor.Stopped, some ElevatorState.Idle, 1, 1, 0,
              ["Reached floor 1", "Motor: stopped"]) :=
  ⟨rfl, test_env_quiet, by
    rw [(moving_floor_sensor test_env (test_world TestMotor.Up ElevatorState.Moving 0 2 1) 5
      rfl).1]
    rfl, rfl, rfl⟩

end ElevatorChecks

end tinyfsm
